import Mathlib

/-!
# WebsiteForge — formal model of the pipeline core

A shallow embedding of the WebsiteForge Apps Script pipeline
(Config.js, Providers.js, GitHub.js, Parser.js, Pipeline.js).
Text is modelled as `List Char`; the specific regular expressions used by
the source are modelled by dedicated matching functions with JavaScript
`String.prototype.match` semantics (leftmost match, lazy or greedy
quantifiers as written in the source pattern).  External collaborators
(LLM backends, the GitHub Contents API, Gmail, Twilio, the spreadsheet)
are modelled as explicit environments/state threaded through the
functions that call them.
-/

namespace WF

/-! ## JavaScript string primitives -/

/-- JavaScript whitespace (the members of `\s` that occur in this code base). -/
def jsWs (c : Char) : Bool :=
  c == ' ' || c == '\t' || c == '\n' || c == '\r' || c == '\x0b' || c == '\x0c'

def trimLeft (s : List Char) : List Char := s.dropWhile jsWs

def trimRight (s : List Char) : List Char := (s.reverse.dropWhile jsWs).reverse

/-- JavaScript `String.prototype.trim`. -/
def jsTrim (s : List Char) : List Char := trimRight (trimLeft s)

/-- Case-insensitive character comparison (the `i` regex flag). -/
def lcEq (p c : Char) : Bool := p.toLower == c.toLower

/-- Does `s` start with `pat`, case-insensitively? -/
def startsCI : List Char → List Char → Bool
  | [], _ => true
  | _ :: _, [] => false
  | p :: ps, c :: cs => lcEq p c && startsCI ps cs

/-- Index of the first case-insensitive occurrence of `pat` in `s`. -/
def findCI (pat : List Char) : List Char → Option Nat
  | [] => if startsCI pat [] then some 0 else none
  | c :: cs => if startsCI pat (c :: cs) then some 0 else (findCI pat cs).map (· + 1)

/-- Pointwise case-insensitive equality of two equal-length character
lists (used to reason about `startsCI`). -/
def ciEqList : List Char → List Char → Bool
  | [], [] => true
  | p :: ps, c :: cs => lcEq p c && ciEqList ps cs
  | _, _ => false

/-! ## Contact helpers (Pipeline.js `isValidEmail` / `isValidPhone` / `normalizePhone`) -/

/-- Pipeline.js `isValidEmail`: reject empty and sentinel strings, then
`lower.indexOf('@') !== -1` on the lowercased, trimmed string. -/
def isValidEmail (email : String) : Bool :=
  if email.isEmpty then false
  else
    let lower := jsTrim (email.data.map Char.toLower)
    if lower == "no email found".data || lower == "none".data ||
       lower == "n/a".data || lower == "unknown".data then false
    else lower.contains '@'

/-- Pipeline.js `isValidPhone`: reject empty and sentinel strings, then require
at least 10 digits among the characters of the original string. -/
def isValidPhone (phone : String) : Bool :=
  if phone.isEmpty then false
  else
    let lower := jsTrim (phone.data.map Char.toLower)
    if lower == "no phone found".data || lower == "none".data ||
       lower == "n/a".data || lower == "unknown".data then false
    else decide (10 ≤ (phone.data.filter Char.isDigit).length)

/-- Pipeline.js `normalizePhone`: strip non-digits, prepend `1` to a bare
10-digit number, then prepend `+`. -/
def normalizePhone (phone : String) : String :=
  let digits := phone.data.filter Char.isDigit
  let digits := if digits.length == 10 then '1' :: digits else digits
  ⟨'+' :: digits⟩

/-! ## Parser.js `toSlug` -/

/-- A character kept verbatim by the slug regex class `[a-z0-9]`. -/
def slugChar (c : Char) : Bool := c.isLower || c.isDigit

/-- Each character outside `[a-z0-9]` becomes a dash
(first half of `replace(/[^a-z0-9]+/g, '-')`). -/
def dashMap (s : List Char) : List Char := s.map fun c => if slugChar c then c else '-'

/-- Collapse maximal dash runs to a single dash (so that `dashMap` followed by
`collapseDash` is exactly `replace(/[^a-z0-9]+/g, '-')`, since `-` itself is
outside `[a-z0-9]`).  The flag records whether the previous kept character was
a dash. -/
def collapseDash : List Char → Bool → List Char
  | [], _ => []
  | c :: rest, prevDash =>
    if c == '-' then
      if prevDash then collapseDash rest true else '-' :: collapseDash rest true
    else c :: collapseDash rest false

/-- `replace(/^-+|-+$/g, '')`. -/
def stripDash (s : List Char) : List Char :=
  ((s.dropWhile (· == '-')).reverse.dropWhile (· == '-')).reverse

/-- Parser.js `toSlug`. -/
def toSlug (name : String) : String :=
  let base := if name.isEmpty then "unknown-business" else name
  ⟨stripDash (collapseDash (dashMap (base.data.map Char.toLower)) false)⟩

/-! ## Parser.js `extractBusinessData` / `validateBusinessData` -/

def tagOpen (label : List Char) : List Char := '<' :: (label ++ ['>'])

def tagClose (label : List Char) : List Char := '<' :: '/' :: (label ++ ['>'])

/-- The strict regex `<LABEL>([\s\S]*?)<\/LABEL>` with flag `i`: first
occurrence of the opening tag, lazy capture up to the first matching closing
tag after it, result trimmed. -/
def strictExtract (label text : List Char) : Option (List Char) :=
  match findCI (tagOpen label) text with
  | none => none
  | some i =>
    match findCI (tagClose label) (text.drop (i + (tagOpen label).length)) with
    | none => none
    | some j => some (jsTrim ((text.drop (i + (tagOpen label).length)).take j))

/-- JavaScript `\w`. -/
def isWordChar (c : Char) : Bool := c.isAlpha || c.isDigit || c == '_'

/-- Does `<\/\w+>` match at the head of `s`?  (`\w+` is greedy and `>` is not a
word character, so the pattern matches exactly when the maximal word-character
run after `</` is nonempty and followed by `>`.) -/
def fuzzyCloseAt : List Char → Bool
  | '<' :: '/' :: rest =>
    let run := rest.takeWhile isWordChar
    decide (0 < run.length) &&
      (match rest.drop run.length with
       | '>' :: _ => true
       | _ => false)
  | _ => false

def findFuzzyClose : List Char → Option Nat
  | [] => none
  | c :: cs => if fuzzyCloseAt (c :: cs) then some 0 else (findFuzzyClose cs).map (· + 1)

/-- The lenient regex `<LABEL>([\s\S]*?)<\/\w+>` with flag `i`: first
occurrence of the opening tag, lazy capture up to the first `<\/\w+>` after
it, result trimmed. -/
def fuzzyExtract (label text : List Char) : Option (List Char) :=
  match findCI (tagOpen label) text with
  | none => none
  | some i =>
    match findFuzzyClose (text.drop (i + (tagOpen label).length)) with
    | none => none
    | some j => some (jsTrim ((text.drop (i + (tagOpen label).length)).take j))

/-- The inner `extract` closure of `extractBusinessData`: strict match first,
then the lenient fallback, otherwise the empty string. -/
def extractField (label : String) (text : List Char) : String :=
  match strictExtract label.data text with
  | some v => ⟨v⟩
  | none =>
    match fuzzyExtract label.data text with
    | some v => ⟨v⟩
    | none => ""

/-- The record produced by `extractBusinessData` (a `channel` property is
added later by `phaseResearch`; it is absent — modelled as `""` — on a fresh
extraction). -/
structure BusinessData where
  business_name : String
  niche : String
  slug : String
  area : String
  current_website_url : String
  target_email : String
  target_phone : String
  research_notes_summary : String
  suggested_domain : String
  domain_cost : String
  services : String
  email_draft : String
  channel : String := ""
  deriving Repr, DecidableEq

/-- Parser.js `extractBusinessData`. -/
def extractBusinessData (text : String) : BusinessData :=
  { business_name := extractField "NAME" text.data
    niche := extractField "NICHE" text.data
    slug := extractField "SLUG" text.data
    area := extractField "AREA" text.data
    current_website_url := extractField "URL" text.data
    target_email := extractField "EMAIL" text.data
    target_phone := extractField "PHONE" text.data
    research_notes_summary := extractField "NOTES" text.data
    suggested_domain := extractField "DOMAIN" text.data
    domain_cost := extractField "COST" text.data
    services := extractField "SERVICES" text.data
    email_draft := extractField "DRAFT" text.data
    channel := "" }

structure ValidationResult where
  valid : Bool
  missing : List String
  deriving Repr, DecidableEq

/-- Dynamic property access `data[required[i]]` for the four required keys. -/
def requiredField (data : BusinessData) : String → String
  | "business_name" => data.business_name
  | "niche" => data.niche
  | "area" => data.area
  | "email_draft" => data.email_draft
  | _ => ""

/-- Parser.js `validateBusinessData`. -/
def validateBusinessData (data : BusinessData) : ValidationResult :=
  let required := ["business_name", "niche", "area", "email_draft"]
  let missing := required.filter fun name => (requiredField data name).isEmpty
  { valid := missing.isEmpty, missing := missing }

/-! ## Providers.js — `withRetry` and `callLLM`

The network side of each adapter (`callOpenAI`, `callAnthropic`, `callGemini`,
`callXAI`) is a closure executed once per attempt; it either returns a
`{ text, error }` record or throws.  The environment supplies the outcome of
that closure for each (1-based) attempt number; `withRetry` itself is
translated verbatim, instrumented to record how many attempts ran and which
backoff delays were slept. -/

structure GenResult where
  text : String
  error : Option String
  deriving Repr, DecidableEq

inductive AttemptOutcome where
  | ok (r : GenResult)
  | threw (msg : String)
  deriving Repr, DecidableEq

/-- JavaScript truthiness of the `error` field (`null` and `''` are falsy). -/
def errTruthy : Option String → Bool
  | none => false
  | some s => !s.isEmpty

def MAX_RETRIES : Nat := 3

def BASE_DELAY_MS : Nat := 1000

structure RetryTrace where
  result : GenResult
  attemptsMade : Nat
  delays : List Nat
  deriving Repr, DecidableEq

/-- The body of the `for (attempt = 1; attempt <= MAX_RETRIES; attempt++)`
loop in `withRetry`.  `fuel` counts the loop iterations still allowed by the
loop condition (the invariant `attempt + fuel = MAX_RETRIES + 1` holds at
every call), so the `fuel = 0` case is the fall-through return after the
loop. -/
def withRetryGo (fn : Nat → AttemptOutcome) : Nat → Nat → String → RetryTrace
  | 0, attempt, lastError =>
    ⟨⟨"", some ("All retries failed. Last error: " ++ lastError)⟩, attempt - 1, []⟩
  | fuel + 1, attempt, lastError =>
    match fn attempt with
    | .ok result =>
      if errTruthy result.error && decide (attempt < MAX_RETRIES) then
        let newLast := match result.error with
          | some s => s
          | none => lastError
        let delay := BASE_DELAY_MS * 2 ^ (attempt - 1)
        let t := withRetryGo fn fuel (attempt + 1) newLast
        ⟨t.result, t.attemptsMade, delay :: t.delays⟩
      else ⟨result, attempt, []⟩
    | .threw e =>
      if decide (attempt < MAX_RETRIES) then
        let delay := BASE_DELAY_MS * 2 ^ (attempt - 1)
        let t := withRetryGo fn fuel (attempt + 1) e
        ⟨t.result, t.attemptsMade, delay :: t.delays⟩
      else ⟨⟨"", some ("All retries failed. Last error: " ++ e)⟩, attempt, []⟩

/-- Providers.js `withRetry`. -/
def withRetry (fn : Nat → AttemptOutcome) : RetryTrace :=
  withRetryGo fn MAX_RETRIES 1 ""

structure Config where
  provider : String
  apiKey : String
  model : String
  githubPat : String
  sheetId : String
  org : String
  repo : String
  branch : String
  autoSend : Bool
  paymentLink : String
  senderName : String
  twilioSid : String
  twilioToken : String
  twilioPhone : String
  twilioEnabled : Bool
  deriving Repr, DecidableEq

/-- The per-attempt outcome of the selected provider adapter closure. -/
structure ProviderEnv where
  attempts : Nat → AttemptOutcome

/-- Providers.js `callLLM`: the `switch (provider)` dispatch.  Every supported
case is `withRetry` around that provider adapter closure; the default case
returns the unknown-provider error without calling `withRetry`. -/
def callLLM (config : Config) (env : ProviderEnv) : RetryTrace :=
  if config.provider == "openai" then withRetry env.attempts
  else if config.provider == "anthropic" then withRetry env.attempts
  else if config.provider == "gemini" then withRetry env.attempts
  else if config.provider == "xai" then withRetry env.attempts
  else ⟨⟨"", some ("Unknown provider: " ++ config.provider)⟩, 0, []⟩

/-! ## Pipeline.js `phaseResearch` (the logic after `callLLM` returns) -/

structure ResearchResult where
  data : Option BusinessData
  error : Option String
  deriving Repr, DecidableEq

/-- Pipeline.js `phaseResearch`, parameterised over the `callLLM` result
(the prompt text only feeds the external model and is not modelled). -/
def phaseResearchFrom (result : GenResult) : ResearchResult :=
  if errTruthy result.error then
    { data := none, error := some ("Research API failed: " ++ result.error.getD "") }
  else
    let data := extractBusinessData result.text
    let validation := validateBusinessData data
    if !validation.valid then
      { data := none
        error := some ("Could not extract required data. Missing: " ++
          String.intercalate ", " validation.missing) }
    else
      let hasEmail := isValidEmail data.target_email
      let hasPhone := isValidPhone data.target_phone
      if !hasEmail && !hasPhone then
        { data := none
          error := some ("No email or phone found for \"" ++ data.business_name ++
            "\". Retrying...") }
      else
        let data := { data with channel := if hasEmail then "email" else "sms" }
        let data := if data.slug.isEmpty then
            { data with slug := toSlug data.business_name }
          else data
        { data := some data, error := none }

def phaseResearch (config : Config) (env : ProviderEnv) : ResearchResult :=
  phaseResearchFrom (callLLM config env).result

/-! ## Parser.js `extractHTML` / `isValidHTML` -/

/-- The fence regex `/```(?:html)?\s*\n?([\s\S]*?)```/i`: first backtick fence,
optional (greedy) `html` language tag, greedy whitespace, then a lazy capture
up to the next fence.  After the greedy `\s*` the next character is never
whitespace, so `\n?` always matches empty and is dropped.  If `html` was
consumed but no closing fence follows, dropping the language tag cannot
create one (the string `html` contains no backtick), so the no-`html`
backtracking alternative fails as well and the whole regex fails. -/
def fenceInner (text : List Char) : Option (List Char) :=
  match findCI "```".data text with
  | none => none
  | some i =>
    let afterOpen := text.drop (i + 3)
    let afterLang := if startsCI "html".data afterOpen then afterOpen.drop 4 else afterOpen
    let body := afterLang.drop (afterLang.takeWhile jsWs).length
    match findCI "```".data body with
    | none => none
    | some j => some (body.take j)

/-- The `\s+html` part of the doctype pattern: `\s+` is greedy and `h` is
not whitespace, so it matches exactly when the maximal whitespace run is
nonempty and followed by `html`. -/
def wsThenHtml (t : List Char) : Bool :=
  decide (0 < (t.takeWhile jsWs).length) &&
    startsCI "html".data (t.drop (t.takeWhile jsWs).length)

/-- Does `<!DOCTYPE\s+html` (case-insensitive) match here? -/
def doctypeAt (s : List Char) : Bool :=
  startsCI "<!doctype".data s && wsThenHtml (s.drop 9)

/-- Position of the first match of `/<!DOCTYPE\s+html[\s\S]*$/i`
(the `[\s\S]*$` tail always matches, so only the head pattern matters). -/
def findDoctype : List Char → Option Nat
  | [] => none
  | c :: cs => if doctypeAt (c :: cs) then some 0 else (findDoctype cs).map (· + 1)

/-- Index of the last case-insensitive occurrence of `pat` in `s`. -/
def findLastCI (pat : List Char) : List Char → Option Nat
  | [] => none
  | c :: cs =>
    match findLastCI pat cs with
    | some j => some (j + 1)
    | none => if startsCI pat (c :: cs) then some 0 else none

/-- The regex `/<html[\s\S]*<\/html>/i`: first `<html` occurrence, greedy
body, so the match extends to the end of the last `</html>` occurrence after
it.  (Any `</html>` occurrence inside the matched suffix necessarily starts
at offset ≥ 5 because the suffix begins with `<html`.) -/
def htmlBlock (text : List Char) : Option (List Char) :=
  match findCI "<html".data text with
  | none => none
  | some i =>
    let rest := text.drop i
    match findLastCI "</html>".data rest with
    | none => none
    | some j => some (rest.take (j + 7))

/-- Global replace of `pat` by the empty string (JS `replace(/pat/g, '')`):
scan left to right, skip the pattern where it matches.  The
`0 < pat.length` conjunct only guards termination; every pattern used has
positive length. -/
def removeAllCI (pat : List Char) : List Char → List Char
  | [] => []
  | c :: cs =>
    if startsCI pat (c :: cs) && decide (0 < pat.length) then
      removeAllCI pat ((c :: cs).drop pat.length)
    else c :: removeAllCI pat cs
termination_by s => s.length
decreasing_by
  · rename_i h
    simp only [Bool.and_eq_true, decide_eq_true_eq] at h
    simp only [List.length_drop, List.length_cons]
    omega
  · simp only [List.length_cons]
    omega

def dtPrefix : List Char := "<!DOCTYPE html>\n".data

/-- Parser.js `extractHTML`. -/
def extractHTMLCore (text0 : List Char) : List Char :=
  let text := match fenceInner text0 with
    | some inner => jsTrim inner
    | none => text0
  match findDoctype text with
  | some i => jsTrim (text.drop i)
  | none =>
    match htmlBlock text with
    | some m0 => dtPrefix ++ jsTrim m0
    | none =>
      let t := removeAllCI "```html".data text
      let t := removeAllCI "```".data t
      let t := jsTrim t
      if startsCI "<!doctype html>".data t then t else dtPrefix ++ t

def extractHTML (text : String) : String := ⟨extractHTMLCore text.data⟩

/-- Parser.js `isValidHTML`. -/
def isValidHTML (html : String) : Bool :=
  decide (200 < html.data.length) && (findCI "<html".data html.data).isSome &&
    (findCI "</html>".data html.data).isSome && (findCI "<body".data html.data).isSome

structure BuildResult where
  html : String
  error : Option String
  deriving Repr, DecidableEq

/-- Pipeline.js `phaseBuild`, parameterised over the `callLLM` result. -/
def phaseBuildFrom (result : GenResult) : BuildResult :=
  if errTruthy result.error then
    ⟨"", some ("Build API failed: " ++ result.error.getD "")⟩
  else
    let html := extractHTML result.text
    if !isValidHTML html then
      ⟨"", some "Generated HTML failed validation. Try again."⟩
    else ⟨html, none⟩

/-! ## GitHub.js `deployToGitHubPages`

`Utilities.base64Encode(s, Utilities.Charset.UTF_8)` is implemented for
real: UTF-8 encode, then standard base64. -/

def utf8Bytes (c : Char) : List Nat :=
  let n := c.toNat
  if n < 0x80 then [n]
  else if n < 0x800 then [0xC0 + n / 64, 0x80 + n % 64]
  else if n < 0x10000 then [0xE0 + n / 4096, 0x80 + n / 64 % 64, 0x80 + n % 64]
  else [0xF0 + n / 262144, 0x80 + n / 4096 % 64, 0x80 + n / 64 % 64, 0x80 + n % 64]

def b64Alphabet : List Char :=
  "ABCDEFGHIJKLMNOPQRSTUVWXYZabcdefghijklmnopqrstuvwxyz0123456789+/".data

def b64Char (n : Nat) : Char := b64Alphabet.getD n '?'

def b64Chunks : List Nat → List Char
  | [] => []
  | [a] => [b64Char (a / 4), b64Char (a % 4 * 16), '=', '=']
  | [a, b] => [b64Char (a / 4), b64Char (a % 4 * 16 + b / 16), b64Char (b % 16 * 4), '=']
  | a :: b :: c :: rest =>
    b64Char (a / 4) :: b64Char (a % 4 * 16 + b / 16) ::
      b64Char (b % 16 * 4 + c / 64) :: b64Char (c % 64) :: b64Chunks rest

/-- `Utilities.base64Encode(htmlContent, Utilities.Charset.UTF_8)`. -/
def base64Encode (s : String) : String :=
  ⟨b64Chunks (s.data.map utf8Bytes).flatten⟩

/-- JS `body.substring(0, n)`. -/
def substrN (n : Nat) (s : String) : String := ⟨s.data.take n⟩

structure PutPayload where
  message : String
  content : String
  branch : String
  sha : Option String
  deriving Repr, DecidableEq

/-- Outcome of one `UrlFetchApp.fetch` call (with `muteHttpExceptions: true`
a response is returned for any status; the call can still throw, e.g. on
network failure). -/
inductive FetchOutcome where
  | resp (code : Nat) (body : String)
  | threw (msg : String)
  deriving Repr, DecidableEq

/-- The external artifact store seen by `deployToGitHubPages`: a GET of the
content path, a PUT with the JSON payload, and the result of
`JSON.parse(body).sha` on a 200 GET body (which can throw, like any code in
the surrounding `try`). -/
structure GhApi (σ : Type) where
  get : σ → String → FetchOutcome × σ
  put : σ → String → PutPayload → FetchOutcome × σ
  parseSha : String → Except String String

structure DeployResult where
  success : Bool
  liveUrl : String
  error : Option String
  deriving Repr, DecidableEq

/-- Step 2 of `deployToGitHubPages` (payload build, PUT, status check,
derived live URL). -/
def deployPut {σ : Type} (api : GhApi σ) (st : σ) (slug htmlContent : String)
    (config : Config) (filePath : String) (sha : Option String) : DeployResult × σ :=
  let payload : PutPayload :=
    { message := match sha with
        | some _ => "Update demo for " ++ slug
        | none => "Add demo for " ++ slug
      content := base64Encode htmlContent
      branch := config.branch
      sha := sha }
  match api.put st filePath payload with
  | (.threw e, st1) => (⟨false, "", some ("GitHub deploy threw: " ++ e)⟩, st1)
  | (.resp putCode putBody, st1) =>
    if putCode ≠ 200 ∧ putCode ≠ 201 then
      (⟨false, "", some ("GitHub PUT failed (" ++ toString putCode ++ "): " ++
        substrN 200 putBody)⟩, st1)
    else
      (⟨true, "https://" ++ config.org ++ ".github.io/" ++ config.repo ++ "/demos/" ++
        slug ++ "/", none⟩, st1)

/-- GitHub.js `deployToGitHubPages`.  Any exception thrown during the
GET/parse/PUT sequence is caught by the surrounding `try` and surfaced as
`GitHub deploy threw: ...`. -/
def deployToGitHubPages {σ : Type} (api : GhApi σ) (st : σ) (slug htmlContent : String)
    (config : Config) : DeployResult × σ :=
  let filePath := "demos/" ++ slug ++ "/index.html"
  match api.get st filePath with
  | (.threw e, st1) => (⟨false, "", some ("GitHub deploy threw: " ++ e)⟩, st1)
  | (.resp code body, st1) =>
    if code = 200 then
      match api.parseSha body with
      | .error e => (⟨false, "", some ("GitHub deploy threw: " ++ e)⟩, st1)
      | .ok sha => deployPut api st1 slug htmlContent config filePath (some sha)
    else if code = 404 then
      deployPut api st1 slug htmlContent config filePath none
    else
      (⟨false, "", some ("GitHub GET failed (" ++ toString code ++ "): " ++
        substrN 200 body)⟩, st1)

/-- A `GhApi` with fixed GET/PUT outcomes, for exercising every response and
exception path of `deployToGitHubPages` (the function performs one GET and at
most one PUT, so fixed outcomes lose no generality). -/
def constApi (g p : FetchOutcome) (parse : String → Except String String) : GhApi Unit where
  get st _ := (g, st)
  put st _ _ := (p, st)
  parseSha := parse

structure GhFile where
  content : String
  sha : Nat
  deriving Repr, DecidableEq

structure Store where
  files : List (String × GhFile)
  counter : Nat
  deriving Repr, DecidableEq

def findFile : List (String × GhFile) → String → Option GhFile
  | [], _ => none
  | (p, f) :: rest, path => if p == path then some f else findFile rest path

def setFile : List (String × GhFile) → String → GhFile → List (String × GhFile)
  | [], _, _ => []
  | (p, f) :: rest, path, nf =>
    if p == path then (path, nf) :: setFile rest path nf
    else (p, f) :: setFile rest path nf

/-- Modelled from the spec (§6, artifact store): the external GitHub Contents
API that `deployToGitHubPages` talks to.  A file carries an opaque revision
(`sha`); GET by path answers 200 with the revision (retrievable via
`parseSha`) or 404; PUT is create-or-update with a revision precondition:
update requires the current revision and answers 200, create requires the
path to be absent and no revision and answers 201, anything else is a 4xx
error and leaves the store unchanged. -/
def storeApi : GhApi Store where
  get st path :=
    match findFile st.files path with
    | some f => (.resp 200 (toString f.sha), st)
    | none => (.resp 404 "Not Found", st)
  put st path payload :=
    match findFile st.files path with
    | some f =>
      match payload.sha with
      | some s =>
        if s == toString f.sha then
          (.resp 200 "updated",
            ⟨setFile st.files path ⟨payload.content, st.counter⟩, st.counter + 1⟩)
        else (.resp 409 "sha mismatch", st)
      | none => (.resp 422 "sha required for update", st)
    | none =>
      match payload.sha with
      | some _ => (.resp 422 "file does not exist", st)
      | none =>
        (.resp 201 "created",
          ⟨st.files ++ [(path, ⟨payload.content, st.counter⟩)], st.counter + 1⟩)
  parseSha body := .ok body

/-! ## Pipeline.js Phase 4 — outreach -/

def SHEET_HEADERS : List String :=
  ["Date_Run", "Area", "Business_Name", "Slug", "Repo_URL", "Live_Pages_URL",
   "Suggested_Domain", "Domain_Cost_Yearly", "Target_Email", "Target_Phone",
   "Drafted_Message", "Channel", "Status", "Sent_Date"]

structure SendResult where
  success : Bool
  error : Option String
  deriving Repr, DecidableEq

structure EmailReq where
  recipient : String
  subject : String
  plainBody : String
  senderName : String
  htmlBody : String
  deriving Repr, DecidableEq

structure TwilioReq where
  url : String
  authHeader : String
  toNumber : String
  fromNumber : String
  body : String
  deriving Repr, DecidableEq

/-- External collaborators of Phase 4: `GmailApp.sendEmail` (returns or
throws), the Twilio `UrlFetchApp.fetch`, and `new Date().toISOString()`. -/
structure OutreachEnv where
  gmail : EmailReq → Except String Unit
  twilio : TwilioReq → FetchOutcome
  nowISO : String

/-- Pipeline.js `sendEmailMessage`. -/
def sendEmailMessage (targetEmail subject htmlBody plainBody senderName : String)
    (env : OutreachEnv) : SendResult :=
  match env.gmail ⟨targetEmail, subject, plainBody, senderName, htmlBody⟩ with
  | .ok _ => ⟨true, none⟩
  | .error e => ⟨false, some e⟩

/-- Pipeline.js `sendSmsMessage`. -/
def sendSmsMessage (targetPhone body : String) (config : Config)
    (env : OutreachEnv) : SendResult :=
  if !config.twilioEnabled then
    ⟨false, some ("Twilio not configured. Set TWILIO_ACCOUNT_SID, TWILIO_AUTH_TOKEN, " ++
      "and TWILIO_PHONE in Script Properties.")⟩
  else
    let url := "https://api.twilio.com/2010-04-01/Accounts/" ++ config.twilioSid ++
      "/Messages.json"
    let authHeader := "Basic " ++ base64Encode (config.twilioSid ++ ":" ++ config.twilioToken)
    match env.twilio ⟨url, authHeader, normalizePhone targetPhone, config.twilioPhone, body⟩ with
    | .threw e => ⟨false, some e⟩
    | .resp code errBody =>
      if 200 ≤ code ∧ code < 300 then ⟨true, none⟩
      else ⟨false, some ("Twilio returned " ++ toString code ++ ": " ++ substrN 200 errBody)⟩

/-- The spreadsheet grid (1-based rows and columns; row 1 is the header
row).  `phaseOutreach` touches it only through `getRange(row, col).setValue`. -/
structure Sheet where
  rows : List (List String)
  deriving Repr, DecidableEq

def updateAt {α : Type} (f : α → α) : List α → Nat → List α
  | [], _ => []
  | x :: xs, 0 => f x :: xs
  | x :: xs, n + 1 => x :: updateAt f xs n

/-- `sheet.getRange(r, c).setValue(v)` for 1-based `r`, `c`. -/
def setCell (sheet : Sheet) (r c : Nat) (v : String) : Sheet :=
  ⟨updateAt (fun row => row.set (c - 1) v) sheet.rows (r - 1)⟩

def getCell (sheet : Sheet) (r c : Nat) : String :=
  ((sheet.rows.getD (r - 1) []).getD (c - 1) "")

/-- The fields of the `phaseLog` result that `phaseOutreach` reads. -/
structure LogResult where
  liveUrl : String
  emailHtml : String
  plainText : String
  smsText : String
  rowNumber : Nat
  deriving Repr, DecidableEq

structure OutreachOutcome where
  sent : Bool
  error : Option String
  deriving Repr, DecidableEq

/-- The common tail of `phaseOutreach` after `result` is computed: on success
write `Sent` and the timestamp into the row, otherwise leave the sheet
untouched. -/
def outreachFinish (result : SendResult) (logResult : LogResult) (env : OutreachEnv)
    (sheet : Sheet) : OutreachOutcome × Sheet :=
  if result.success then
    (⟨true, none⟩,
      setCell (setCell sheet logResult.rowNumber (SHEET_HEADERS.indexOf "Status" + 1)
          "Sent")
        logResult.rowNumber (SHEET_HEADERS.indexOf "Sent_Date" + 1) env.nowISO)
  else (⟨false, result.error⟩, sheet)

/-- Pipeline.js `phaseOutreach`. -/
def phaseOutreach (config : Config) (biz : BusinessData) (logResult : LogResult)
    (env : OutreachEnv) (sheet : Sheet) : OutreachOutcome × Sheet :=
  if !config.autoSend then (⟨false, none⟩, sheet)
  else
    let channel := if biz.channel.isEmpty then "email" else biz.channel
    if channel == "email" && isValidEmail biz.target_email then
      let subject := "I built " ++ biz.business_name ++ " a free website"
      let result := sendEmailMessage biz.target_email subject logResult.emailHtml
        logResult.plainText config.senderName env
      outreachFinish result logResult env sheet
    else if channel == "sms" && isValidPhone biz.target_phone then
      let result := sendSmsMessage biz.target_phone logResult.smsText config env
      outreachFinish result logResult env sheet
    else (⟨false, some ("No valid contact for channel: " ++ channel)⟩, sheet)

/-! ## Pipeline.js `runWebsiteForgePipeline` — the Phase 1 retry loop -/

def MAX_ATTEMPTS : Nat := 5

/-- One research attempt per loop iteration; the environment supplies the
`callLLM` outcome of each (1-based) attempt. -/
structure PipelineEnv where
  research : Nat → ResearchResult

/-- Either the run returned before Phase 2 with a failure toast, or control
reached the Phase 2 (`Building`) code with an accepted lead. -/
inductive Phase1Outcome where
  | failed (toast : String)
  | proceed (biz : BusinessData) (attempts : Nat)
  deriving Repr, DecidableEq

/-- The `for (attempt = 1; attempt <= MAX_ATTEMPTS; attempt++)` loop:
`fuel` counts the iterations the loop condition still allows
(`attempt + fuel = MAX_ATTEMPTS + 1` at every call). -/
def researchLoop (research : Nat → ResearchResult) : Nat → Nat → Option BusinessData × Nat
  | 0, attempt => (none, attempt - 1)
  | fuel + 1, attempt =>
    match (research attempt).data with
    | some d => (some d, attempt)
    | none => researchLoop research fuel (attempt + 1)

/-- Lines 874–899 of Pipeline.js: the research retry loop and the
`if (!biz) { toast(...); return; }` guard in front of Phase 2. -/
def runPipelinePhase1 (env : PipelineEnv) : Phase1Outcome :=
  match researchLoop env.research MAX_ATTEMPTS 1 with
  | (some biz, attempts) => .proceed biz attempts
  | (none, _) =>
    .failed ("No leads with contact info after " ++ toString MAX_ATTEMPTS ++
      " tries. Try again later.")

/-- Did this attempt fail in the sense of the retry loop (threw, or returned
a truthy `error`)? -/
def attemptFails : AttemptOutcome → Bool
  | .ok r => errTruthy r.error
  | .threw _ => true

/-- The GET/parse phase of `deployToGitHubPages` succeeds: 200 with a
parseable `sha`, or 404. -/
def getOk (parse : String → Except String String) : FetchOutcome → Bool
  | .resp c b =>
    if c == 200 then
      match parse b with
      | .ok _ => true
      | .error _ => false
    else c == 404
  | .threw _ => false

/-- The PUT status is one of the two accepted create/update statuses. -/
def putOk : FetchOutcome → Bool
  | .resp c _ => c == 200 || c == 201
  | .threw _ => false

/-! ## General lemmas about characters and the matchers -/

theorem lcEq_self (c : Char) : lcEq c c = true := by
  simp [lcEq]

theorem startsCI_self_append (p r : List Char) : startsCI p (p ++ r) = true := by
  induction p with
  | nil => rfl
  | cons c cs ih => simp [startsCI, lcEq_self, ih]

theorem toLower_toNat_of_upper (c : Char) (h1 : 65 ≤ c.toNat) (h2 : c.toNat ≤ 90) :
    (Char.toLower c).toNat = c.toNat + 32 := by
  have hc : Char.ofNat c.toNat = c := Char.ofNat_toNat c
  rw [← hc]
  generalize c.toNat = n at h1 h2
  interval_cases n <;> decide

theorem toLower_of_not_upper (c : Char) (h : ¬(65 ≤ c.toNat ∧ c.toNat ≤ 90)) :
    Char.toLower c = c := by
  show (if c.toNat ≥ 65 ∧ c.toNat ≤ 90 then Char.ofNat (c.toNat + 32) else c) = c
  rw [if_neg]
  exact fun hc => h ⟨hc.1, hc.2⟩

/-- `toLower` of an uppercase ASCII letter lands in the lowercase range. -/
theorem toLower_toNat_mem (c : Char) :
    Char.toLower c = c ∨ (97 ≤ (Char.toLower c).toNat ∧ (Char.toLower c).toNat ≤ 122) := by
  by_cases h : 65 ≤ c.toNat ∧ c.toNat ≤ 90
  · right
    rw [toLower_toNat_of_upper c h.1 h.2]
    omega
  · left
    exact toLower_of_not_upper c h

/-- For a target character outside the lowercase-letter range that `toLower`
fixes, `c.toLower = d` forces `c = d`. -/
theorem eq_of_toLower_eq (c d : Char)
    (hd : ¬(97 ≤ d.toNat ∧ d.toNat ≤ 122)) (h : Char.toLower c = d) : c = d := by
  rcases toLower_toNat_mem c with hc | hc
  · rw [← hc, h]
  · exact absurd (h ▸ hc) hd

/-- `lcEq d c = true` forces `c = d` when `d` is a symbol (not a letter of
either case). -/
theorem eq_of_lcEq (d c : Char) (hfix : Char.toLower d = d)
    (hd : ¬(97 ≤ d.toNat ∧ d.toNat ≤ 122)) (h : lcEq d c = true) : c = d := by
  simp only [lcEq, beq_iff_eq] at h
  exact eq_of_toLower_eq c d hd (by rw [← h, hfix])

theorem jsWs_toLower_self (c : Char) (h : jsWs c = true) : Char.toLower c = c := by
  simp only [jsWs, Bool.or_eq_true, beq_iff_eq] at h
  rcases h with ((((h | h) | h) | h) | h) | h <;> subst h <;> decide

/-- A character case-insensitively equal to a lowercase letter is not
whitespace. -/
theorem not_jsWs_of_lcEq_letter (d c : Char) (hd : 97 ≤ d.toNat ∧ d.toNat ≤ 122)
    (hws : jsWs d = false) (h : lcEq d c = true) : jsWs c = false := by
  by_contra hc
  have hc : jsWs c = true := by revert hc; cases jsWs c <;> simp
  simp only [lcEq, beq_iff_eq] at h
  rw [jsWs_toLower_self c hc] at h
  have hfix : Char.toLower d = d := by
    apply toLower_of_not_upper
    omega
  rw [hfix] at h
  rw [h] at hws
  rw [hws] at hc
  exact Bool.noConfusion hc

/-! ## C6 — required-field validation -/

/-- C6: validation fails exactly when at least one of the four required
fields (`business_name`, `niche`, `area`, `email_draft`) is absent, and the
`missing` list contains exactly the names of the absent required fields (in
the fixed order of the `required` array) and no others. -/
theorem claim_C6 (d : BusinessData) :
    ((validateBusinessData d).valid = false ↔
      (d.business_name = "" ∨ d.niche = "" ∨ d.area = "" ∨ d.email_draft = "")) ∧
    (validateBusinessData d).missing =
      (if d.business_name = "" then ["business_name"] else []) ++
      (if d.niche = "" then ["niche"] else []) ++
      (if d.area = "" then ["area"] else []) ++
      (if d.email_draft = "" then ["email_draft"] else []) := by
  cases hb1 : d.business_name.isEmpty <;> cases hb2 : d.niche.isEmpty <;>
    cases hb3 : d.area.isEmpty <;> cases hb4 : d.email_draft.isEmpty <;>
      simp [validateBusinessData, requiredField, List.filter, hb1, hb2, hb3, hb4,
        ← String.isEmpty_iff, hb1, hb2, hb3, hb4]

/-! ## C1 — `withRetry` retry policy -/

/-- C1 (amended): `withRetry` makes at most `MAX_RETRIES = 3` attempts; a
successful attempt short-circuits the rest; the delay slept before attempt
`k+1` is `BASE_DELAY_MS * 2 ^ (k - 1)` and no delay follows the final
attempt; when all three attempts fail, the returned error carries the
`All retries failed. Last error: ` prefix when the third attempt THREW,
while a third attempt that RETURNS an error result is returned unchanged
(without the retries-exhausted prefix). -/
theorem claim_C1 (fn : Nat → AttemptOutcome) :
    ((withRetry fn).attemptsMade ≤ 3) ∧
    (∀ r, fn 1 = .ok r → errTruthy r.error = false → withRetry fn = ⟨r, 1, []⟩) ∧
    (∀ r, attemptFails (fn 1) = true → fn 2 = .ok r → errTruthy r.error = false →
      withRetry fn = ⟨r, 2, [1000]⟩) ∧
    (∀ r, attemptFails (fn 1) = true → attemptFails (fn 2) = true → fn 3 = .ok r →
      withRetry fn = ⟨r, 3, [1000, 2000]⟩) ∧
    (∀ e, attemptFails (fn 1) = true → attemptFails (fn 2) = true → fn 3 = .threw e →
      withRetry fn =
        ⟨⟨"", some ("All retries failed. Last error: " ++ e)⟩, 3, [1000, 2000]⟩) := by
  refine ⟨?_, ?_, ?_, ?_, ?_⟩
  · cases h1 : fn 1 with
    | ok r1 =>
      by_cases e1 : errTruthy r1.error
      · cases h2 : fn 2 with
        | ok r2 =>
          by_cases e2 : errTruthy r2.error
          · cases h3 : fn 3 <;>
              simp [withRetry, withRetryGo, MAX_RETRIES, h1, h2, h3, e1, e2]
          · simp [withRetry, withRetryGo, MAX_RETRIES, h1, h2, e1, e2]
        | threw m2 =>
          cases h3 : fn 3 <;>
            simp [withRetry, withRetryGo, MAX_RETRIES, h1, h2, h3, e1]
      · simp [withRetry, withRetryGo, MAX_RETRIES, h1, e1]
    | threw m1 =>
      cases h2 : fn 2 with
      | ok r2 =>
        by_cases e2 : errTruthy r2.error
        · cases h3 : fn 3 <;>
            simp [withRetry, withRetryGo, MAX_RETRIES, h1, h2, h3, e2]
        · simp [withRetry, withRetryGo, MAX_RETRIES, h1, h2, e2]
      | threw m2 =>
        cases h3 : fn 3 <;>
          simp [withRetry, withRetryGo, MAX_RETRIES, h1, h2, h3]
  · intro r h1 e1
    simp [withRetry, withRetryGo, MAX_RETRIES, h1, e1]
  · intro r f1 h2 e2
    cases h1 : fn 1 with
    | ok r1 =>
      rw [h1] at f1
      simp only [attemptFails] at f1
      simp [withRetry, withRetryGo, MAX_RETRIES, BASE_DELAY_MS, h1, h2, f1, e2]
    | threw m1 =>
      simp [withRetry, withRetryGo, MAX_RETRIES, BASE_DELAY_MS, h1, h2, e2]
  · intro r f1 f2 h3
    cases h1 : fn 1 with
    | ok r1 =>
      rw [h1] at f1
      simp only [attemptFails] at f1
      cases h2 : fn 2 with
      | ok r2 =>
        rw [h2] at f2
        simp only [attemptFails] at f2
        simp [withRetry, withRetryGo, MAX_RETRIES, BASE_DELAY_MS, h1, h2, h3, f1, f2]
      | threw m2 =>
        simp [withRetry, withRetryGo, MAX_RETRIES, BASE_DELAY_MS, h1, h2, h3, f1]
    | threw m1 =>
      cases h2 : fn 2 with
      | ok r2 =>
        rw [h2] at f2
        simp only [attemptFails] at f2
        simp [withRetry, withRetryGo, MAX_RETRIES, BASE_DELAY_MS, h1, h2, h3, f2]
      | threw m2 =>
        simp [withRetry, withRetryGo, MAX_RETRIES, BASE_DELAY_MS, h1, h2, h3]
  · intro e f1 f2 h3
    cases h1 : fn 1 with
    | ok r1 =>
      rw [h1] at f1
      simp only [attemptFails] at f1
      cases h2 : fn 2 with
      | ok r2 =>
        rw [h2] at f2
        simp only [attemptFails] at f2
        simp [withRetry, withRetryGo, MAX_RETRIES, BASE_DELAY_MS, h1, h2, h3, f1, f2]
      | threw m2 =>
        simp [withRetry, withRetryGo, MAX_RETRIES, BASE_DELAY_MS, h1, h2, h3, f1]
    | threw m1 =>
      cases h2 : fn 2 with
      | ok r2 =>
        rw [h2] at f2
        simp only [attemptFails] at f2
        simp [withRetry, withRetryGo, MAX_RETRIES, BASE_DELAY_MS, h1, h2, h3, f2]
      | threw m2 =>
        simp [withRetry, withRetryGo, MAX_RETRIES, BASE_DELAY_MS, h1, h2, h3]

/-- Witness for C1 at concrete attempt sequences: a first-attempt success
returns after one attempt, and two failures followed by a third thrown
failure produce the prefixed exhaustion error with delays 1000 and 2000 ms. -/
theorem claim_C1_witness :
    withRetry (fun _ => .ok ⟨"hi", none⟩) = ⟨⟨"hi", none⟩, 1, []⟩ ∧
    withRetry (fun _ => .threw "netfail") =
      ⟨⟨"", some ("All retries failed. Last error: " ++ "netfail")⟩, 3, [1000, 2000]⟩ := by
  constructor
  · exact (claim_C1 (fun _ => .ok ⟨"hi", none⟩)).2.1 ⟨"hi", none⟩ rfl rfl
  · exact (claim_C1 (fun _ => .threw "netfail")).2.2.2.2 "netfail" rfl rfl rfl

/-- Counterexample to C1 as stated: with every attempt returning the error
result `boom` (no exception), all three attempts fail, yet the call returns
the last failure unchanged — `boom` — not prefixed to indicate retries were
exhausted. -/
theorem claim_C1_counterexample :
    withRetry (fun _ => .ok ⟨"", some "boom"⟩) = ⟨⟨"", some "boom"⟩, 3, [1000, 2000]⟩ ∧
    some "boom" ≠ some ("All retries failed. Last error: " ++ "boom") := by
  constructor
  · decide
  · decide

/-! ## C4 — contact gate and channel derivation -/

/-- An accepted research result is exactly the extracted record, enriched
with the derived channel and (if absent) the derived slug, and it passed the
error check, the validation and the contact gate. -/
theorem phaseResearchFrom_accept (r : GenResult) (d : BusinessData)
    (hd : (phaseResearchFrom r).data = some d) :
    errTruthy r.error = false ∧
    (validateBusinessData (extractBusinessData r.text)).valid = true ∧
    (isValidEmail (extractBusinessData r.text).target_email = true ∨
      isValidPhone (extractBusinessData r.text).target_phone = true) ∧
    d = (let base := extractBusinessData r.text
         let d1 : BusinessData :=
           { base with
             channel := if isValidEmail base.target_email then "email" else "sms" }
         if d1.slug.isEmpty then { d1 with slug := toSlug d1.business_name } else d1) := by
  by_cases herr : errTruthy r.error
  · simp [phaseResearchFrom, herr] at hd
  · cases hv : (validateBusinessData (extractBusinessData r.text)).valid
    · simp [phaseResearchFrom, herr, hv] at hd
    · cases he : isValidEmail (extractBusinessData r.text).target_email
      · cases hp : isValidPhone (extractBusinessData r.text).target_phone
        · simp [phaseResearchFrom, herr, hv, he, hp] at hd
        · simp [phaseResearchFrom, herr, hv, he, hp] at hd
          refine ⟨by simpa using herr, rfl, Or.inr rfl, ?_⟩
          simp only [he, Bool.false_eq_true, if_false]
          exact hd.symm
      · simp [phaseResearchFrom, herr, hv, he] at hd
        refine ⟨by simpa using herr, rfl, Or.inl rfl, ?_⟩
        simp only [he, if_true]
        exact hd.symm

/-- C4: an accepted record derives `channel = "email"` iff its
`target_email` passes `isValidEmail`, any accepted non-email record has
`channel = "sms"` with a `target_phone` passing `isValidPhone`, every
accepted record has a validated contact, and a response whose record has
neither a usable email nor a usable phone is rejected with the
retry-signalling error instead of being returned as data. -/
theorem claim_C4 (r : GenResult) :
    (∀ d, (phaseResearchFrom r).data = some d →
      ((d.channel = "email" ↔ isValidEmail d.target_email = true) ∧
       (d.channel ≠ "email" → d.channel = "sms" ∧ isValidPhone d.target_phone = true) ∧
       (isValidEmail d.target_email = true ∨ isValidPhone d.target_phone = true))) ∧
    (errTruthy r.error = false →
      (validateBusinessData (extractBusinessData r.text)).valid = true →
      isValidEmail (extractBusinessData r.text).target_email = false →
      isValidPhone (extractBusinessData r.text).target_phone = false →
      phaseResearchFrom r =
        ⟨none, some ("No email or phone found for \"" ++
          (extractBusinessData r.text).business_name ++ "\". Retrying...")⟩) := by
  constructor
  · intro d hd
    obtain ⟨-, -, hcontact, hshape⟩ := phaseResearchFrom_accept r d hd
    simp only at hshape
    have hfields : d.target_email = (extractBusinessData r.text).target_email ∧
        d.target_phone = (extractBusinessData r.text).target_phone ∧
        d.channel = (if isValidEmail (extractBusinessData r.text).target_email
          then "email" else "sms") := by
      rw [hshape]
      split <;> exact ⟨rfl, rfl, rfl⟩
    obtain ⟨hte, htp, hch⟩ := hfields
    rw [hte, htp, hch]
    cases he : isValidEmail (extractBusinessData r.text).target_email
    · have hp : isValidPhone (extractBusinessData r.text).target_phone = true := by
        rcases hcontact with h | h
        · rw [he] at h
          exact Bool.noConfusion h
        · exact h
      simp [hp]
    · simp
  · intro herr hv he hp
    simp [phaseResearchFrom, herr, hv, he, hp]

set_option maxRecDepth 20000 in
/-- Witness for C4: a concrete response with a usable email and no phone is
accepted with `channel = "email"`; a concrete response with neither a usable
email nor a usable phone is rejected with the retry-signalling error. -/
theorem claim_C4_witness :
    (("email" : String) = "email" ↔
      isValidEmail (("info@acme.com" : String)) = true) ∧
    phaseResearchFrom
        ⟨"<NAME>Bob Roofing</NAME><NICHE>roofing</NICHE><AREA>Tulsa, OK</AREA>" ++
          "<EMAIL>No email found</EMAIL><PHONE>No phone found</PHONE><DRAFT>Hi</DRAFT>",
          none⟩ =
      ⟨none, some ("No email or phone found for \"" ++ "Bob Roofing" ++ "\". Retrying...")⟩ := by
  constructor
  · have h := (claim_C4
      ⟨"<NAME>Acme</NAME><NICHE>plumbing</NICHE><AREA>Springfield</AREA>" ++
        "<EMAIL>info@acme.com</EMAIL><DRAFT>Hello</DRAFT>", none⟩).1
      ⟨"Acme", "plumbing", "acme", "Springfield", "", "info@acme.com", "", "", "", "",
        "", "Hello", "email"⟩ (by decide)
    exact h.1
  · have h2 := (claim_C4
      ⟨"<NAME>Bob Roofing</NAME><NICHE>roofing</NICHE><AREA>Tulsa, OK</AREA>" ++
        "<EMAIL>No email found</EMAIL><PHONE>No phone found</PHONE><DRAFT>Hi</DRAFT>",
        none⟩).2 (by decide) (by decide) (by decide) (by decide)
    calc phaseResearchFrom _ = ⟨none, some ("No email or phone found for \"" ++
          (extractBusinessData _).business_name ++ "\". Retrying...")⟩ := h2
    _ = _ := by decide

/-! ## C7 — slug derivation -/

theorem head?_dropWhile_eq_some {α : Type} (p : α → Bool) (l : List α) (c : α)
    (h : (l.dropWhile p).head? = some c) : p c = false := by
  have hn := List.head?_dropWhile_not p l
  rw [h] at hn
  exact hn

theorem getLast?_dropWhile_of_ne_nil {α : Type} (p : α → Bool) (l : List α)
    (h : l.dropWhile p ≠ []) : (l.dropWhile p).getLast? = l.getLast? := by
  obtain ⟨t, ht⟩ := List.dropWhile_suffix (l := l) p
  conv_rhs => rw [← ht]
  rw [List.getLast?_append]
  cases hg : (l.dropWhile p).getLast? with
  | none =>
    exact absurd (List.getLast?_eq_none_iff.mp hg) h
  | some c => rfl

theorem mem_dropWhile_of_mem {α : Type} (p : α → Bool) (l : List α) (c : α)
    (hc : c ∈ l) (hp : p c = false) : c ∈ l.dropWhile p := by
  induction l with
  | nil => cases hc
  | cons a rest ih =>
    rw [List.dropWhile_cons]
    rcases List.mem_cons.mp hc with rfl | hmem
    · rw [hp]
      exact List.mem_cons_self ..
    · split
      · exact ih hmem
      · exact List.mem_cons_of_mem a hmem

theorem mem_of_mem_collapseDash (l : List Char) (b : Bool) (c : Char)
    (h : c ∈ collapseDash l b) : c ∈ l := by
  induction l generalizing b with
  | nil => cases h
  | cons a rest ih =>
    rw [collapseDash] at h
    split at h
    · rename_i ha
      split at h
      · exact List.mem_cons_of_mem a (ih _ h)
      · rcases List.mem_cons.mp h with rfl | hmem
        · have ha2 : a = '-' := by simpa using ha
          rw [ha2]
          exact List.mem_cons_self ..
        · exact List.mem_cons_of_mem a (ih _ hmem)
    · rcases List.mem_cons.mp h with rfl | hmem
      · exact List.mem_cons_self ..
      · exact List.mem_cons_of_mem a (ih _ hmem)

theorem mem_collapseDash_of_mem (l : List Char) (c : Char)
    (hc : c ∈ l) (hne : c ≠ '-') : ∀ b, c ∈ collapseDash l b := by
  induction l with
  | nil => cases hc
  | cons a rest ih =>
    intro b
    rw [collapseDash]
    rcases List.mem_cons.mp hc with rfl | hmem
    · have hna : ¬((c == '-') = true) := by
        simp [hne]
      rw [if_neg hna]
      exact List.mem_cons_self ..
    · split
      · split
        · exact ih hmem _
        · exact List.mem_cons_of_mem _ (ih hmem _)
      · exact List.mem_cons_of_mem _ (ih hmem _)

theorem mem_stripDash_of_mem (l : List Char) (c : Char)
    (hc : c ∈ l) (hne : c ≠ '-') : c ∈ stripDash l := by
  have hp : (c == '-') = false := by simpa using hne
  unfold stripDash
  rw [List.mem_reverse]
  refine mem_dropWhile_of_mem (· == '-') _ c ?_ hp
  rw [List.mem_reverse]
  exact mem_dropWhile_of_mem (· == '-') _ c hc hp

/-- Counterexample to C7 as stated: `toSlug` of a business name with no
alphanumeric character (here `"!!!"`) is the EMPTY string, so the derived
slug is not always non-empty. -/
theorem claim_C7_counterexample : toSlug "!!!" = "" := by decide

/-- C7 (amended): when the model omits the slug the accepted record's slug is
`toSlug businessName`; for every businessName the resulting slug consists
only of characters in `[a-z0-9-]` (hence is lowercase) and has no leading or
trailing hyphen; it is non-empty whenever businessName contains at least one
character that lowercases into `[a-z0-9]` (an empty businessName falls back
to `"unknown-business"`), but a businessName with no such character yields
the empty slug. -/
theorem claim_C7 (name : String) (r : GenResult) :
    (∀ c ∈ (toSlug name).data, slugChar c = true ∨ c = '-') ∧
    ((toSlug name).data.head? ≠ some '-') ∧
    ((toSlug name).data.getLast? ≠ some '-') ∧
    ((∃ c ∈ name.data, slugChar c.toLower = true) → toSlug name ≠ "") ∧
    (∀ d, (phaseResearchFrom r).data = some d →
      (extractBusinessData r.text).slug = "" → d.slug = toSlug d.business_name) := by
  have hdata : ∀ n : String, (toSlug n).data =
      stripDash (collapseDash (dashMap ((if n.isEmpty then "unknown-business" else n
        : String).data.map Char.toLower)) false) := by
    intro n
    rfl
  refine ⟨?_, ?_, ?_, ?_, ?_⟩
  · intro c hm
    rw [hdata] at hm
    set base := (if name.isEmpty then "unknown-business" else name : String)
    have h1 : c ∈ collapseDash (dashMap (base.data.map Char.toLower)) false := by
      unfold stripDash at hm
      rw [List.mem_reverse] at hm
      have h2 := List.dropWhile_subset (· == '-') hm
      rw [List.mem_reverse] at h2
      exact List.dropWhile_subset (· == '-') h2
    have h3 := mem_of_mem_collapseDash _ _ _ h1
    simp only [dashMap, List.mem_map] at h3
    obtain ⟨a, -, ha⟩ := h3
    by_cases hs : slugChar a = true
    · rw [hs] at ha
      simp only [if_true] at ha
      exact Or.inl (ha ▸ hs)
    · rw [eq_false_of_ne_true hs] at ha
      simp only [Bool.false_eq_true, if_false] at ha
      exact Or.inr ha.symm
  · rw [hdata]
    unfold stripDash
    rw [List.head?_reverse]
    intro hcon
    have hne : ((collapseDash (dashMap ((if name.isEmpty then "unknown-business"
        else name : String).data.map Char.toLower)) false).dropWhile
          (· == '-')).reverse.dropWhile (· == '-') ≠ [] := by
      intro hnil
      rw [hnil] at hcon
      exact Option.noConfusion hcon
    rw [getLast?_dropWhile_of_ne_nil _ _ hne] at hcon
    rw [List.getLast?_reverse] at hcon
    have := head?_dropWhile_eq_some _ _ _ hcon
    simp at this
  · rw [hdata]
    unfold stripDash
    rw [List.getLast?_reverse]
    intro hcon
    have := head?_dropWhile_eq_some _ _ _ hcon
    simp at this
  · rintro ⟨c, hc, hslug⟩
    have hbase : c ∈ (if name.isEmpty then "unknown-business" else name : String).data := by
      have hne : name.isEmpty = false := by
        cases hn : name.isEmpty
        · rfl
        · rw [String.isEmpty_iff] at hn
          rw [hn] at hc
          cases hc
      rw [hne]
      simpa using hc
    have hlow : c.toLower ∈ ((if name.isEmpty then "unknown-business" else name
        : String).data.map Char.toLower) := List.mem_map_of_mem Char.toLower hbase
    have hnd : c.toLower ≠ '-' := by
      intro hdash
      rw [hdash] at hslug
      exact Bool.noConfusion hslug
    have hmem1 : c.toLower ∈ dashMap ((if name.isEmpty then "unknown-business" else name
        : String).data.map Char.toLower) := by
      unfold dashMap
      refine List.mem_map.mpr ⟨c.toLower, hlow, ?_⟩
      simp [hslug]
    have hmem2 := mem_collapseDash_of_mem _ _ hmem1 hnd false
    have hmem3 := mem_stripDash_of_mem _ _ hmem2 hnd
    intro hempty
    have : (toSlug name).data = [] := by rw [hempty]
    rw [hdata] at this
    rw [this] at hmem3
    cases hmem3
  · intro d hd hslug
    obtain ⟨-, -, -, hshape⟩ := phaseResearchFrom_accept r d hd
    simp only at hshape
    rw [hshape]
    have hempty : (({ extractBusinessData r.text with
        channel := if isValidEmail (extractBusinessData r.text).target_email
          then "email" else "sms" } : BusinessData)).slug.isEmpty = true := by
      show (extractBusinessData r.text).slug.isEmpty = true
      rw [hslug]
      rfl
    rw [if_pos hempty]

set_option maxRecDepth 20000 in
/-- Witness for C7 (amended): a name with an alphanumeric character yields a
non-empty slug, and a concrete accepted record whose response omitted the
slug carries `toSlug businessName`. -/
theorem claim_C7_witness :
    toSlug "Acme Plumbing!" ≠ "" ∧
    (⟨"Acme", "plumbing", "acme", "Springfield", "", "info@acme.com", "", "", "", "",
      "", "Hello", "email"⟩ : BusinessData).slug =
      toSlug (⟨"Acme", "plumbing", "acme", "Springfield", "", "info@acme.com", "", "",
        "", "", "", "Hello", "email"⟩ : BusinessData).business_name := by
  constructor
  · exact (claim_C7 "Acme Plumbing!" ⟨"", none⟩).2.2.2.1 ⟨'A', by decide, by decide⟩
  · exact (claim_C7 "x"
      ⟨"<NAME>Acme</NAME><NICHE>plumbing</NICHE><AREA>Springfield</AREA>" ++
        "<EMAIL>info@acme.com</EMAIL><DRAFT>Hello</DRAFT>", none⟩).2.2.2.2
      ⟨"Acme", "plumbing", "acme", "Springfield", "", "info@acme.com", "", "", "", "",
        "", "Hello", "email"⟩ (by decide) (by decide)

/-! ## C8 — research attempt ceiling -/

/-- Complete characterisation of the Phase 1 retry loop: an accepted exit
happens exactly at the first attempt whose research result carries data, and
exhausting the fuel yields no lead. -/
theorem researchLoop_spec (research : Nat → ResearchResult) (fuel : Nat) :
    ∀ attempt,
    (∀ d k, researchLoop research fuel attempt = (some d, k) →
      attempt ≤ k ∧ k < attempt + fuel ∧ (research k).data = some d ∧
        ∀ j, attempt ≤ j → j < k → (research j).data = none) ∧
    ((∀ j, attempt ≤ j → j < attempt + fuel → (research j).data = none) →
      researchLoop research fuel attempt = (none, attempt + fuel - 1)) ∧
    (∀ d k, attempt ≤ k → k < attempt + fuel →
      (∀ j, attempt ≤ j → j < k → (research j).data = none) →
      (research k).data = some d → researchLoop research fuel attempt = (some d, k)) := by
  induction fuel with
  | zero =>
    intro attempt
    refine ⟨?_, ?_, ?_⟩
    · intro d k h
      rw [researchLoop] at h
      cases h
    · intro _
      simp [researchLoop]
    · intro d k h1 h2 _ _
      omega
  | succ f ih =>
    intro attempt
    refine ⟨?_, ?_, ?_⟩
    · intro d k h
      rw [researchLoop] at h
      cases hr : (research attempt).data with
      | some d0 =>
        rw [hr] at h
        cases h
        exact ⟨Nat.le_refl _, by omega, hr, fun j hj1 hj2 => absurd hj1 (by omega)⟩
      | none =>
        rw [hr] at h
        obtain ⟨hk1, hk2, hk3, hk4⟩ := (ih (attempt + 1)).1 d k h
        refine ⟨by omega, by omega, hk3, ?_⟩
        intro j hj1 hj2
        rcases Nat.eq_or_lt_of_le hj1 with rfl | hj
        · exact hr
        · exact hk4 j (by omega) hj2
    · intro hall
      rw [researchLoop]
      rw [hall attempt (Nat.le_refl _) (by omega)]
      rw [(ih (attempt + 1)).2.1 (fun j hj1 hj2 => hall j (by omega) (by omega))]
      have : attempt + 1 + f - 1 = attempt + (f + 1) - 1 := by omega
      rw [this]
    · intro d k hk1 hk2 hnone hk
      rw [researchLoop]
      rcases Nat.eq_or_lt_of_le hk1 with rfl | hlt
      · rw [hk]
      · rw [hnone attempt (Nat.le_refl _) hlt]
        exact (ih (attempt + 1)).2.2 d k (by omega) (by omega)
          (fun j hj1 hj2 => hnone j (by omega) hj2) hk

/-- The terminal no-leads toast is distinct from any generation-API failure
message produced by `phaseResearch`. -/
theorem noleads_toast_ne_api (s : String) :
    ("No leads with contact info after " ++ toString MAX_ATTEMPTS ++
      " tries. Try again later.") ≠ "Research API failed: " ++ s := by
  intro h
  obtain ⟨sd⟩ := s
  have hh : ("No leads with contact info after " ++ toString MAX_ATTEMPTS ++
      " tries. Try again later.").data.head? =
      ("Research API failed: " ++ (⟨sd⟩ : String)).data.head? :=
    congrArg (fun t : String => t.data.head?) h
  rw [show ("No leads with contact info after " ++ toString MAX_ATTEMPTS ++
      " tries. Try again later.").data.head? = some 'N' from rfl] at hh
  rw [show ("Research API failed: " ++ (⟨sd⟩ : String)).data.head? = some 'R'
      from rfl] at hh
  exact absurd hh (by decide)

/-- C8: the pipeline performs at most `MAX_ATTEMPTS = 5` research attempts;
the first attempt that yields accepted data exits the loop and control
proceeds to the Building phase with that lead; if all five attempts yield no
data the run terminates before Building with the toast
`No leads with contact info after 5 tries. Try again later.`, which is
distinct from every generation-API failure reason. -/
theorem claim_C8 (env : PipelineEnv) :
    (∀ biz k, runPipelinePhase1 env = .proceed biz k →
      1 ≤ k ∧ k ≤ 5 ∧ (env.research k).data = some biz ∧
        ∀ j, 1 ≤ j → j < k → (env.research j).data = none) ∧
    (∀ k biz, 1 ≤ k → k ≤ 5 → (∀ j, 1 ≤ j → j < k → (env.research j).data = none) →
      (env.research k).data = some biz → runPipelinePhase1 env = .proceed biz k) ∧
    ((∀ j, 1 ≤ j → j ≤ 5 → (env.research j).data = none) →
      runPipelinePhase1 env =
        .failed "No leads with contact info after 5 tries. Try again later.") ∧
    (∀ toast s, runPipelinePhase1 env = .failed toast →
      toast ≠ "Research API failed: " ++ s) := by
  obtain ⟨hs1, hs2, hs3⟩ := researchLoop_spec env.research 5 1
  refine ⟨?_, ?_, ?_, ?_⟩
  · intro biz k hp
    unfold runPipelinePhase1 at hp
    cases hloop : researchLoop env.research MAX_ATTEMPTS 1 with
    | mk fst snd =>
      rw [hloop] at hp
      cases fst with
      | some d =>
        cases hp
        have hMA : MAX_ATTEMPTS = 5 := rfl
        rw [hMA] at hloop
        obtain ⟨h1, h2, h3, h4⟩ := hs1 biz k hloop
        exact ⟨h1, by omega, h3, h4⟩
      | none => cases hp
  · intro k biz hk1 hk5 hnone hk
    unfold runPipelinePhase1
    have hMA : MAX_ATTEMPTS = 5 := rfl
    rw [hMA]
    rw [hs3 biz k hk1 (by omega) hnone hk]
  · intro hall
    unfold runPipelinePhase1
    have hMA : MAX_ATTEMPTS = 5 := rfl
    rw [hMA]
    rw [hs2 (fun j hj1 hj2 => hall j hj1 (by omega))]
    decide
  · intro toast s hp
    unfold runPipelinePhase1 at hp
    cases hloop : researchLoop env.research MAX_ATTEMPTS 1 with
    | mk fst snd =>
      rw [hloop] at hp
      cases fst with
      | some d => cases hp
      | none =>
        cases hp
        exact noleads_toast_ne_api s

/-- Witness for C8: with every attempt failing (e.g. the provider erroring
each time), the pipeline reports the no-leads toast without entering
Building, and with data on attempt 1 it proceeds immediately. -/
theorem claim_C8_witness :
    runPipelinePhase1 ⟨fun _ => ⟨none, some "Research API failed: boom"⟩⟩ =
      .failed "No leads with contact info after 5 tries. Try again later." ∧
    runPipelinePhase1 ⟨fun _ => ⟨some ⟨"Acme", "plumbing", "acme", "Springfield", "",
        "info@acme.com", "", "", "", "", "", "Hello", "email"⟩, none⟩⟩ =
      .proceed ⟨"Acme", "plumbing", "acme", "Springfield", "", "info@acme.com", "", "",
        "", "", "", "Hello", "email"⟩ 1 := by
  constructor
  · exact (claim_C8 ⟨fun _ => ⟨none, some "Research API failed: boom"⟩⟩).2.2.1
      (fun j _ _ => rfl)
  · exact (claim_C8 ⟨fun _ => ⟨some ⟨"Acme", "plumbing", "acme", "Springfield", "",
        "info@acme.com", "", "", "", "", "", "Hello", "email"⟩, none⟩⟩).2.1 1 _
      (Nat.le_refl 1) (by omega) (fun j hj1 hj2 => absurd hj1 (by omega)) rfl

/-! ## C9 — outreach failure leaves the log row untouched -/

/-- C9: with auto-send enabled, an unavailable channel (SMS selected while
Twilio is unconfigured, or no valid contact for the derived channel) makes
`phaseOutreach` return `sent = false` with the distinguishing error message,
and every non-sent outcome leaves the sheet exactly as it was — in
particular a row whose `Status` is `Review Needed` and whose `Sent_Date` is
empty keeps both values (columns 13 and 14 are written only on a successful
send). -/
theorem claim_C9 (config : Config) (biz : BusinessData) (logResult : LogResult)
    (env : OutreachEnv) (sheet : Sheet) :
    config.autoSend = true →
    ((biz.channel = "sms" → isValidPhone biz.target_phone = true →
      config.twilioEnabled = false →
      phaseOutreach config biz logResult env sheet =
        (⟨false, some ("Twilio not configured. Set TWILIO_ACCOUNT_SID, " ++
          "TWILIO_AUTH_TOKEN, and TWILIO_PHONE in Script Properties.")⟩, sheet)) ∧
    (∀ channel, channel = (if biz.channel.isEmpty then "email" else biz.channel) →
      ¬(channel = "email" ∧ isValidEmail biz.target_email = true) →
      ¬(channel = "sms" ∧ isValidPhone biz.target_phone = true) →
      phaseOutreach config biz logResult env sheet =
        (⟨false, some ("No valid contact for channel: " ++ channel)⟩, sheet)) ∧
    (∀ out sheet2, phaseOutreach config biz logResult env sheet = (out, sheet2) →
      out.sent = false →
      sheet2 = sheet ∧
      (getCell sheet logResult.rowNumber 13 = "Review Needed" →
        getCell sheet2 logResult.rowNumber 13 = "Review Needed") ∧
      (getCell sheet logResult.rowNumber 14 = "" →
        getCell sheet2 logResult.rowNumber 14 = ""))) := by
  intro ha
  refine ⟨?_, ?_, ?_⟩
  · intro hch hp ht
    have hee : biz.channel.isEmpty = false := by
      rw [hch]
      rfl
    simp [phaseOutreach, ha, hch, hee, hp, ht, sendSmsMessage, outreachFinish,
      show (("sms" : String) == "email") = false from rfl,
      show (("sms" : String) == "sms") = true from rfl,
      show ("sms" : String).isEmpty = false from rfl]
  · intro channel hcdef h1 h2
    have hb1 : ((if biz.channel.isEmpty then "email" else biz.channel) == "email" &&
        isValidEmail biz.target_email) = false := by
      rw [← hcdef]
      by_cases hce : channel = "email"
      · have hv : isValidEmail biz.target_email = false := by
          cases hv : isValidEmail biz.target_email
          · rfl
          · exact absurd ⟨hce, hv⟩ h1
        simp [hv]
      · simp [hce]
    have hb2 : ((if biz.channel.isEmpty then "email" else biz.channel) == "sms" &&
        isValidPhone biz.target_phone) = false := by
      rw [← hcdef]
      by_cases hcs : channel = "sms"
      · have hv : isValidPhone biz.target_phone = false := by
          cases hv : isValidPhone biz.target_phone
          · rfl
          · exact absurd ⟨hcs, hv⟩ h2
        simp [hv]
      · simp [hcs]
    simp only [phaseOutreach, ha, Bool.not_true, Bool.false_eq_true, if_false, hb1, hb2]
    rw [hcdef]
  · intro out sheet2 hres hsent
    have hfin : ∀ result, outreachFinish result logResult env sheet = (out, sheet2) →
        sheet2 = sheet := by
      intro result h
      rw [outreachFinish] at h
      split at h
      · injection h with h1 h2
        rw [← h1] at hsent
        exact Bool.noConfusion hsent
      · injection h with h1 h2
        exact h2.symm
    have hframe : sheet2 = sheet := by
      simp only [phaseOutreach, ha, Bool.not_true, Bool.false_eq_true, if_false] at hres
      repeat' split at hres
      all_goals
        first
          | exact hfin _ hres
          | (injection hres with h1 h2
             exact h2.symm)
    refine ⟨hframe, ?_, ?_⟩ <;> rw [hframe] <;> exact id

/-- Witness for C9, at a concrete run: auto-send on, `channel = "sms"`, a
10-digit phone, Twilio unconfigured — outreach reports the Twilio
configuration error and the sheet (row status `Review Needed`, empty
`Sent_Date`) is returned unchanged. -/
theorem claim_C9_witness :
    phaseOutreach
      ⟨"openai", "key", "gpt-4o", "pat", "sheetid", "cybercraftsolutionsllc",
        "website-forge", "main", true, "", "Cyber Craft Solutions", "", "", "", false⟩
      ⟨"Bob Roofing", "roofing", "bob-roofing", "Tulsa", "", "No email found",
        "5551234567", "", "", "", "", "Hi", "sms"⟩
      ⟨"https://cybercraftsolutionsllc.github.io/website-forge/demos/bob-roofing/",
        "<html></html>", "plain", "sms body", 2⟩
      ⟨fun _ => .ok (), fun _ => .resp 500 "", "2026-10-11T00:00:00.000Z"⟩
      ⟨[["Date_Run"], ["d", "Tulsa"]]⟩ =
      (⟨false, some ("Twilio not configured. Set TWILIO_ACCOUNT_SID, " ++
        "TWILIO_AUTH_TOKEN, and TWILIO_PHONE in Script Properties.")⟩,
       ⟨[["Date_Run"], ["d", "Tulsa"]]⟩) := by
  exact (claim_C9 _ _ _ _ _ rfl).1 rfl (by decide) rfl

/-! ## C3 — deploy never raises and classifies every outcome -/

/-- C3: `deployToGitHubPages` always returns a structured result (it is a
total function of the two fetch outcomes and the parse outcome); the write is
a success exactly when the GET phase succeeded (200-with-sha or 404) and the
PUT answered one of the two create/update statuses; on success the live URL
is derived from the slug and the static org/repo configuration (not from the
write response) and `error` is empty; a GET status other than 200/404, or a
PUT status other than 200/201, yields `success = false` with an error naming
the status and the 200-character-truncated body; and any exception thrown
during the GET/parse/PUT sequence yields `success = false` with the
`GitHub deploy threw: ` error. -/
theorem claim_C3 (g p : FetchOutcome) (parse : String → Except String String)
    (slug html : String) (config : Config) (res : DeployResult) (st2 : Unit)
    (hres : deployToGitHubPages (constApi g p parse) () slug html config = (res, st2)) :
    (res.success = (getOk parse g && putOk p)) ∧
    (res.success = true →
      res.liveUrl = "https://" ++ config.org ++ ".github.io/" ++ config.repo ++
        "/demos/" ++ slug ++ "/" ∧ res.error = none) ∧
    (∀ c b, g = .resp c b → c ≠ 200 → c ≠ 404 →
      res = ⟨false, "", some ("GitHub GET failed (" ++ toString c ++ "): " ++
        substrN 200 b)⟩) ∧
    (∀ c2 b2, getOk parse g = true → p = .resp c2 b2 → c2 ≠ 200 → c2 ≠ 201 →
      res = ⟨false, "", some ("GitHub PUT failed (" ++ toString c2 ++ "): " ++
        substrN 200 b2)⟩) ∧
    (∀ e, g = .threw e → res = ⟨false, "", some ("GitHub deploy threw: " ++ e)⟩) ∧
    (∀ b e, g = .resp 200 b → parse b = .error e →
      res = ⟨false, "", some ("GitHub deploy threw: " ++ e)⟩) ∧
    (∀ e, getOk parse g = true → p = .threw e →
      res = ⟨false, "", some ("GitHub deploy threw: " ++ e)⟩) := by
  rcases g with ⟨code, body⟩ | e
  · by_cases h200 : code = 200
    · subst h200
      cases hp : parse body with
      | ok sha =>
        rcases p with ⟨c2, b2⟩ | e2
        · by_cases hfail : c2 ≠ 200 ∧ c2 ≠ 201
          · simp only [deployToGitHubPages, constApi, deployPut, hp, if_true] at hres
            rw [if_pos hfail] at hres
            injection hres with h1 h2
            subst h1
            refine ⟨?_, ?_, ?_, ?_, ?_, ?_, ?_⟩
            · simp [getOk, putOk, hp, hfail.1, hfail.2]
            · intro hcon
              exact Bool.noConfusion hcon
            · intro c b hg
              injection hg with hg1 hg2
              subst hg1
              intro hcon
              exact absurd rfl hcon
            · intro c2x b2x _ hpp _ _
              injection hpp with hp1 hp2
              subst hp1
              subst hp2
              rfl
            · intro e hg
              exact FetchOutcome.noConfusion hg
            · intro b e hg hpe
              injection hg with hg1 hg2
              subst hg2
              rw [hp] at hpe
              exact Except.noConfusion hpe
            · intro e _ hpp
              exact FetchOutcome.noConfusion hpp
          · have hok : c2 = 200 ∨ c2 = 201 := by
              by_cases hc2 : c2 = 200
              · exact Or.inl hc2
              · by_cases hc3 : c2 = 201
                · exact Or.inr hc3
                · exact absurd ⟨hc2, hc3⟩ hfail
            simp only [deployToGitHubPages, constApi, deployPut, hp, if_true] at hres
            rw [if_neg hfail] at hres
            injection hres with h1 h2
            subst h1
            refine ⟨?_, ?_, ?_, ?_, ?_, ?_, ?_⟩
            · rcases hok with rfl | rfl <;> simp [getOk, putOk, hp]
            · intro _
              exact ⟨rfl, rfl⟩
            · intro c b hg
              injection hg with hg1 hg2
              subst hg1
              intro hcon
              exact absurd rfl hcon
            · intro c2x b2x _ hpp hn200 hn201
              injection hpp with hp1 hp2
              subst hp1
              rcases hok with rfl | rfl
              · exact absurd rfl hn200
              · exact absurd rfl hn201
            · intro e hg
              exact FetchOutcome.noConfusion hg
            · intro b e hg hpe
              injection hg with hg1 hg2
              subst hg2
              rw [hp] at hpe
              exact Except.noConfusion hpe
            · intro e _ hpp
              exact FetchOutcome.noConfusion hpp
        · simp only [deployToGitHubPages, constApi, deployPut, hp, if_true] at hres
          injection hres with h1 h2
          subst h1
          refine ⟨?_, ?_, ?_, ?_, ?_, ?_, ?_⟩
          · simp [getOk, putOk, hp]
          · intro hcon
            exact Bool.noConfusion hcon
          · intro c b hg
            injection hg with hg1 hg2
            subst hg1
            intro hcon
            exact absurd rfl hcon
          · intro c2x b2x _ hpp
            exact FetchOutcome.noConfusion hpp
          · intro e hg
            exact FetchOutcome.noConfusion hg
          · intro b e hg hpe
            injection hg with hg1 hg2
            subst hg2
            rw [hp] at hpe
            exact Except.noConfusion hpe
          · intro e _ hpp
            injection hpp with hpp1
            subst hpp1
            rfl
      | error e =>
        simp only [deployToGitHubPages, constApi, deployPut, hp, if_true] at hres
        injection hres with h1 h2
        subst h1
        refine ⟨?_, ?_, ?_, ?_, ?_, ?_, ?_⟩
        · simp [getOk, putOk, hp]
        · intro hcon
          exact Bool.noConfusion hcon
        · intro c b hg
          injection hg with hg1 hg2
          subst hg1
          intro hcon
          exact absurd rfl hcon
        · intro c2x b2x hgok
          rw [getOk] at hgok
          simp [hp] at hgok
        · intro ex hg
          exact FetchOutcome.noConfusion hg
        · intro b2 e2 hg hpe
          injection hg with hg1 hg2
          subst hg2
          rw [hp] at hpe
          injection hpe with he
          subst he
          rfl
        · intro e2 hgok
          rw [getOk] at hgok
          simp [hp] at hgok
    · by_cases h404 : code = 404
      · subst h404
        rcases p with ⟨c2, b2⟩ | e2
        · by_cases hfail : c2 ≠ 200 ∧ c2 ≠ 201
          · simp only [deployToGitHubPages, constApi, deployPut, if_true] at hres
            rw [if_pos hfail] at hres
            injection hres with h1 h2
            subst h1
            refine ⟨?_, ?_, ?_, ?_, ?_, ?_, ?_⟩
            · simp [getOk, putOk, hfail.1, hfail.2]
            · intro hcon
              exact Bool.noConfusion hcon
            · intro c b hg
              injection hg with hg1 hg2
              subst hg1
              intro _ hcon
              exact absurd rfl hcon
            · intro c2x b2x _ hpp
              injection hpp with hp1 hp2
              subst hp1
              subst hp2
              intro _ _
              rfl
            · intro e hg
              exact FetchOutcome.noConfusion hg
            · intro b e hg
              injection hg with hg1 hg2
              exact fun _ => absurd hg1 (by decide)
            · intro e _ hpp
              exact FetchOutcome.noConfusion hpp
          · have hok : c2 = 200 ∨ c2 = 201 := by
              by_cases hc2 : c2 = 200
              · exact Or.inl hc2
              · by_cases hc3 : c2 = 201
                · exact Or.inr hc3
                · exact absurd ⟨hc2, hc3⟩ hfail
            simp only [deployToGitHubPages, constApi, deployPut, if_true] at hres
            rw [if_neg hfail] at hres
            injection hres with h1 h2
            subst h1
            refine ⟨?_, ?_, ?_, ?_, ?_, ?_, ?_⟩
            · rcases hok with rfl | rfl <;> simp [getOk, putOk]
            · intro _
              exact ⟨rfl, rfl⟩
            · intro c b hg
              injection hg with hg1 hg2
              subst hg1
              intro _ hcon
              exact absurd rfl hcon
            · intro c2x b2x _ hpp hn200 hn201
              injection hpp with hp1 hp2
              subst hp1
              rcases hok with rfl | rfl
              · exact absurd rfl hn200
              · exact absurd rfl hn201
            · intro e hg
              exact FetchOutcome.noConfusion hg
            · intro b e hg
              injection hg with hg1 hg2
              intro hcon
              exact absurd hg1 (by decide)
            · intro e _ hpp
              exact FetchOutcome.noConfusion hpp
        · simp only [deployToGitHubPages, constApi, deployPut, if_true] at hres
          injection hres with h1 h2
          subst h1
          refine ⟨?_, ?_, ?_, ?_, ?_, ?_, ?_⟩
          · simp [getOk, putOk]
          · intro hcon
            exact Bool.noConfusion hcon
          · intro c b hg
            injection hg with hg1 hg2
            subst hg1
            intro _ hcon
            exact absurd rfl hcon
          · intro c2x b2x _ hpp
            exact FetchOutcome.noConfusion hpp
          · intro e hg
            exact FetchOutcome.noConfusion hg
          · intro b e hg
            injection hg with hg1 hg2
            intro hcon
            exact absurd hg1 (by decide)
          · intro e _ hpp
            injection hpp with hpp1
            subst hpp1
            rfl
      · simp only [deployToGitHubPages, constApi, deployPut] at hres
        rw [if_neg (by simpa using h200), if_neg (by simpa using h404)] at hres
        injection hres with h1 h2
        subst h1
        refine ⟨?_, ?_, ?_, ?_, ?_, ?_, ?_⟩
        · simp [getOk, putOk, h200, h404]
        · intro hcon
          exact Bool.noConfusion hcon
        · intro c b hg
          injection hg with hg1 hg2
          subst hg1
          subst hg2
          intro _ _
          rfl
        · intro c2x b2x hgok
          rw [getOk] at hgok
          simp [h200, h404] at hgok
        · intro e hg
          exact FetchOutcome.noConfusion hg
        · intro b e hg
          injection hg with hg1 hg2
          exact absurd hg1 h200
        · intro e hgok
          rw [getOk] at hgok
          simp [h200, h404] at hgok
  · simp only [deployToGitHubPages, constApi] at hres
    injection hres with h1 h2
    subst h1
    refine ⟨?_, ?_, ?_, ?_, ?_, ?_, ?_⟩
    · simp [getOk, putOk]
    · intro hcon
      exact Bool.noConfusion hcon
    · intro c b hg
      exact FetchOutcome.noConfusion hg
    · intro c2x b2x hgok
      rw [getOk] at hgok
      exact Bool.noConfusion hgok
    · intro e2 hg
      injection hg with hg1
      subst hg1
      rfl
    · intro b e2 hg
      exact FetchOutcome.noConfusion hg
    · intro e2 hgok
      rw [getOk] at hgok
      exact Bool.noConfusion hgok

/-- Witness for C3 at concrete outcomes: a 404-then-201 create succeeds with
the derived URL, and a thrown GET is caught and surfaced. -/
theorem claim_C3_witness :
    (deployToGitHubPages
        (constApi (.resp 404 "Not Found") (.resp 201 "created") (fun b => .ok b)) ()
        "acme-plumbing" "<html></html>"
        ⟨"openai", "k", "m", "pat", "s", "cybercraftsolutionsllc", "website-forge",
          "main", false, "", "n", "", "", "", false⟩).1.liveUrl =
      "https://" ++ "cybercraftsolutionsllc" ++ ".github.io/" ++ "website-forge" ++
        "/demos/" ++ "acme-plumbing" ++ "/" ∧
    (deployToGitHubPages
        (constApi (.threw "DNS failure") (.resp 201 "created") (fun b => .ok b)) ()
        "acme-plumbing" "<html></html>"
        ⟨"openai", "k", "m", "pat", "s", "cybercraftsolutionsllc", "website-forge",
          "main", false, "", "n", "", "", "", false⟩).1 =
      ⟨false, "", some ("GitHub deploy threw: " ++ "DNS failure")⟩ := by
  constructor
  · exact ((claim_C3 (.resp 404 "Not Found") (.resp 201 "created") (fun b => .ok b)
      "acme-plumbing" "<html></html>"
      ⟨"openai", "k", "m", "pat", "s", "cybercraftsolutionsllc", "website-forge",
        "main", false, "", "n", "", "", "", false⟩ _ _ rfl).2.1 (by decide)).1
  · exact (claim_C3 (.threw "DNS failure") (.resp 201 "created") (fun b => .ok b)
      "acme-plumbing" "<html></html>"
      ⟨"openai", "k", "m", "pat", "s", "cybercraftsolutionsllc", "website-forge",
        "main", false, "", "n", "", "", "", false⟩ _ _ rfl).2.2.2.2.1 "DNS failure" rfl

/-! ## C2 — idempotent publish against the store -/

theorem findFile_append_none (l : List (String × GhFile)) (path : String) (f : GhFile)
    (h : findFile l path = none) : findFile (l ++ [(path, f)]) path = some f := by
  induction l with
  | nil => simp [findFile]
  | cons e rest ih =>
    rw [findFile] at h
    rw [List.cons_append, findFile]
    split at h
    · exact Option.noConfusion h
    · rename_i hne
      rw [if_neg hne]
      exact ih h

theorem findFile_setFile_some (l : List (String × GhFile)) (path : String)
    (g nf : GhFile) (h : findFile l path = some g) :
    findFile (setFile l path nf) path = some nf := by
  induction l with
  | nil => cases h
  | cons e rest ih =>
    rw [findFile] at h
    rw [setFile]
    split at h
    · rename_i heq
      rw [if_pos heq, findFile, if_pos (by simp)]
    · rename_i hne
      rw [if_neg hne, findFile, if_neg hne]
      exact ih h

theorem countP_setFile (l : List (String × GhFile)) (path : String) (nf : GhFile) :
    (setFile l path nf).countP (fun e => e.1 == path) =
      l.countP (fun e => e.1 == path) := by
  induction l with
  | nil => rfl
  | cons e rest ih =>
    rw [setFile]
    split
    · rename_i heq
      rw [List.countP_cons, List.countP_cons, ih]
      simp only [heq]
      simp
    · rw [List.countP_cons, List.countP_cons, ih]

theorem countP_zero_of_findFile_none (l : List (String × GhFile)) (path : String)
    (h : findFile l path = none) : l.countP (fun e => e.1 == path) = 0 := by
  induction l with
  | nil => rfl
  | cons e rest ih =>
    rw [findFile] at h
    split at h
    · exact Option.noConfusion h
    · rename_i hne
      rw [List.countP_cons, ih h]
      simp only [hne]
      rfl

theorem countP_pos_of_findFile_some (l : List (String × GhFile)) (path : String)
    (f : GhFile) (h : findFile l path = some f) :
    1 ≤ l.countP (fun e => e.1 == path) := by
  induction l with
  | nil => cases h
  | cons e rest ih =>
    rw [findFile] at h
    rw [List.countP_cons]
    split at h
    · rename_i heq
      simp [heq]
    · have := ih h
      omega

/-- C2: two successive `deployToGitHubPages` calls with the same slug and
(possibly different) contents against a store holding at most one object at
the derived path both succeed; afterwards exactly ONE object lives at that
path; its content is the encoding of the second call's content; and its
revision is strictly newer than the revision left by the first call — so the
second call was a revision-conditioned update, not a duplicate creation and
not a silent no-op. -/
theorem claim_C2 (st : Store) (slug html1 html2 : String) (config : Config)
    (hdup : st.files.countP
      (fun e => e.1 == ("demos/" ++ slug ++ "/index.html")) ≤ 1) :
    ∀ r1 st1 r2 st2,
    deployToGitHubPages storeApi st slug html1 config = (r1, st1) →
    deployToGitHubPages storeApi st1 slug html2 config = (r2, st2) →
    r1.success = true ∧ r2.success = true ∧
    st2.files.countP (fun e => e.1 == ("demos/" ++ slug ++ "/index.html")) = 1 ∧
    ∃ f1 f2, findFile st1.files ("demos/" ++ slug ++ "/index.html") = some f1 ∧
      findFile st2.files ("demos/" ++ slug ++ "/index.html") = some f2 ∧
      f1.content = base64Encode html1 ∧ f2.content = base64Encode html2 ∧
      f2.sha = f1.sha + 1 := by
  intro r1 st1 r2 st2 hres1 hres2
  cases hf : findFile st.files ("demos/" ++ slug ++ "/index.html") with
  | none =>
    have hzero := countP_zero_of_findFile_none _ _ hf
    simp [deployToGitHubPages, deployPut, storeApi, hf] at hres1
    obtain ⟨hr1, hst1⟩ := hres1
    subst hst1
    have hf1 : findFile (st.files ++
        [("demos/" ++ slug ++ "/index.html",
          ⟨base64Encode html1, st.counter⟩)]) ("demos/" ++ slug ++ "/index.html") =
        some ⟨base64Encode html1, st.counter⟩ := findFile_append_none _ _ _ hf
    simp [deployToGitHubPages, deployPut, storeApi, hf1] at hres2
    obtain ⟨hr2, hst2⟩ := hres2
    subst hst2
    refine ⟨by rw [← hr1], by rw [← hr2], ?_, ?_⟩
    · rw [countP_setFile, List.countP_append, hzero]
      simp
    · refine ⟨⟨base64Encode html1, st.counter⟩,
        ⟨base64Encode html2, st.counter + 1⟩, hf1, ?_, rfl, rfl, rfl⟩
      exact findFile_setFile_some _ _ _ _ hf1
  | some f0 =>
    have hone : st.files.countP (fun e => e.1 == ("demos/" ++ slug ++ "/index.html")) = 1 := by
      have := countP_pos_of_findFile_some _ _ _ hf
      omega
    simp [deployToGitHubPages, deployPut, storeApi, hf] at hres1
    obtain ⟨hr1, hst1⟩ := hres1
    subst hst1
    have hf1 : findFile (setFile st.files ("demos/" ++ slug ++ "/index.html")
        ⟨base64Encode html1, st.counter⟩) ("demos/" ++ slug ++ "/index.html") =
        some ⟨base64Encode html1, st.counter⟩ := findFile_setFile_some _ _ _ _ hf
    simp [deployToGitHubPages, deployPut, storeApi, hf1] at hres2
    obtain ⟨hr2, hst2⟩ := hres2
    subst hst2
    refine ⟨by rw [← hr1], by rw [← hr2], ?_, ?_⟩
    · rw [countP_setFile, countP_setFile, hone]
    · refine ⟨⟨base64Encode html1, st.counter⟩,
        ⟨base64Encode html2, st.counter + 1⟩, hf1, ?_, rfl, rfl, rfl⟩
      exact findFile_setFile_some _ _ _ _ hf1

/-- Witness for C2: starting from the empty store, publishing
`acme-plumbing` twice with different contents succeeds both times and leaves
exactly one object at the derived path. -/
theorem claim_C2_witness :
    (deployToGitHubPages storeApi ⟨[], 0⟩ "acme-plumbing" "<p>a</p>"
      ⟨"openai", "k", "m", "pat", "s", "cybercraftsolutionsllc", "website-forge",
        "main", false, "", "n", "", "", "", false⟩).1.success = true ∧
    (deployToGitHubPages storeApi
      (deployToGitHubPages storeApi ⟨[], 0⟩ "acme-plumbing" "<p>a</p>"
        ⟨"openai", "k", "m", "pat", "s", "cybercraftsolutionsllc", "website-forge",
          "main", false, "", "n", "", "", "", false⟩).2 "acme-plumbing" "<p>b</p>"
      ⟨"openai", "k", "m", "pat", "s", "cybercraftsolutionsllc", "website-forge",
        "main", false, "", "n", "", "", "", false⟩).1.success = true ∧
    ((deployToGitHubPages storeApi
      (deployToGitHubPages storeApi ⟨[], 0⟩ "acme-plumbing" "<p>a</p>"
        ⟨"openai", "k", "m", "pat", "s", "cybercraftsolutionsllc", "website-forge",
          "main", false, "", "n", "", "", "", false⟩).2 "acme-plumbing" "<p>b</p>"
      ⟨"openai", "k", "m", "pat", "s", "cybercraftsolutionsllc", "website-forge",
        "main", false, "", "n", "", "", "", false⟩).2).files.countP
      (fun e => e.1 == ("demos/" ++ "acme-plumbing" ++ "/index.html")) = 1 := by
  have h := claim_C2 ⟨[], 0⟩ "acme-plumbing" "<p>a</p>" "<p>b</p>"
    ⟨"openai", "k", "m", "pat", "s", "cybercraftsolutionsllc", "website-forge",
      "main", false, "", "n", "", "", "", false⟩ (by decide) _ _ _ _ rfl rfl
  exact ⟨h.1, h.2.1, h.2.2.1⟩

/-! ## C5 — two-tier tag extraction -/

theorem lcEq_lt_false (c : Char) (hc : c ≠ '<') : lcEq '<' c = false := by
  cases hb : lcEq '<' c
  · rfl
  · exact absurd (eq_of_lcEq '<' c (by decide) (by decide) hb) hc

theorem findCI_append_self (pat : List Char) (ph : Char) (pt : List Char)
    (hpat : pat = ph :: pt) (rest : List Char) : findCI pat (pat ++ rest) = some 0 := by
  subst hpat
  have hs : startsCI (ph :: pt) (ph :: (pt ++ rest)) = true :=
    startsCI_self_append (ph :: pt) rest
  rw [List.cons_append, findCI, if_pos hs]

theorem findCI_append_of_fail (pat : List Char) (ph : Char) (pt : List Char)
    (hpat : pat = ph :: pt) (x y : List Char) (hx : ∀ c ∈ x, lcEq ph c = false) :
    findCI pat (x ++ y) = (findCI pat y).map (· + x.length) := by
  induction x with
  | nil =>
    cases hf : findCI pat y <;> simp [hf]
  | cons c x2 ih =>
    have hfail : startsCI pat (c :: (x2 ++ y)) = false := by
      rw [hpat, startsCI, hx c (List.mem_cons_self ..)]
      rfl
    rw [List.cons_append, findCI, if_neg (by rw [hfail]; exact Bool.noConfusion)]
    rw [ih (fun c hc => hx c (List.mem_cons_of_mem _ hc))]
    cases hf : findCI pat y <;> simp [Nat.add_assoc]

theorem fuzzyCloseAt_ne_lt (c : Char) (l : List Char) (hc : c ≠ '<') :
    fuzzyCloseAt (c :: l) = false := by
  unfold fuzzyCloseAt
  split
  · rename_i heq
    injection heq with h1 h2
    exact absurd h1 hc
  · rfl

theorem fuzzyCloseAt_wellformed (w rest : List Char) (hne : w ≠ [])
    (hw : ∀ c ∈ w, isWordChar c = true) :
    fuzzyCloseAt ('<' :: '/' :: (w ++ ('>' :: rest))) = true := by
  show (decide (0 < ((w ++ ('>' :: rest)).takeWhile isWordChar).length) &&
    (match (w ++ ('>' :: rest)).drop ((w ++ ('>' :: rest)).takeWhile isWordChar).length with
      | '>' :: _ => true
      | _ => false)) = true
  have hrun : (w ++ ('>' :: rest)).takeWhile isWordChar = w := by
    rw [List.takeWhile_append_of_pos hw]
    rw [List.takeWhile_cons_of_neg (by decide)]
    exact List.append_nil w
  rw [hrun, List.drop_left]
  simp [List.length_pos.mpr hne]

theorem findFuzzyClose_append (x y : List Char) (hx : ∀ c ∈ x, c ≠ '<')
    (hy : fuzzyCloseAt y = true) : findFuzzyClose (x ++ y) = some x.length := by
  induction x with
  | nil =>
    cases y with
    | nil => simp [fuzzyCloseAt] at hy
    | cons c cs =>
      rw [List.nil_append, findFuzzyClose, if_pos hy]
      rfl
  | cons c x2 ih =>
    rw [List.cons_append, findFuzzyClose]
    rw [if_neg (by
      rw [fuzzyCloseAt_ne_lt c _ (hx c (List.mem_cons_self ..))]
      exact Bool.noConfusion)]
    rw [ih (fun c hc => hx c (List.mem_cons_of_mem _ hc))]
    rfl

theorem jsTrim_getLast? (s : List Char) (c : Char) (h : (jsTrim s).getLast? = some c) :
    jsWs c = false := by
  unfold jsTrim trimRight trimLeft at h
  rw [List.getLast?_reverse] at h
  exact head?_dropWhile_eq_some _ _ _ h

theorem jsTrim_head? (s : List Char) (c : Char) (h : (jsTrim s).head? = some c) :
    jsWs c = false := by
  unfold jsTrim trimRight trimLeft at h
  rw [List.head?_reverse] at h
  have hne : (s.dropWhile jsWs).reverse.dropWhile jsWs ≠ [] := by
    intro hnil
    rw [hnil] at h
    cases h
  rw [getLast?_dropWhile_of_ne_nil _ _ hne, List.getLast?_reverse] at h
  exact head?_dropWhile_eq_some _ _ _ h

theorem strictExtract_isTrim (label text : List Char) (v : List Char)
    (h : strictExtract label text = some v) : ∃ u, v = jsTrim u := by
  rw [strictExtract] at h
  split at h
  · exact Option.noConfusion h
  · split at h
    · exact Option.noConfusion h
    · injection h with h1
      exact ⟨_, h1.symm⟩

theorem fuzzyExtract_isTrim (label text : List Char) (v : List Char)
    (h : fuzzyExtract label text = some v) : ∃ u, v = jsTrim u := by
  rw [fuzzyExtract] at h
  split at h
  · exact Option.noConfusion h
  · split at h
    · exact Option.noConfusion h
    · injection h with h1
      exact ⟨_, h1.symm⟩

theorem strictExtract_wellformed (label x rest : List Char) (hx : ∀ c ∈ x, c ≠ '<') :
    strictExtract label (tagOpen label ++ (x ++ (tagClose label ++ rest))) =
      some (jsTrim x) := by
  have hopen := findCI_append_self (tagOpen label) '<' (label ++ ['>']) rfl
    (x ++ (tagClose label ++ rest))
  simp only [strictExtract, hopen]
  have hdrop : (tagOpen label ++ (x ++ (tagClose label ++ rest))).drop
      (0 + (tagOpen label).length) = x ++ (tagClose label ++ rest) := by
    rw [Nat.zero_add]
    exact List.drop_left _ _
  rw [hdrop]
  have hclose : findCI (tagClose label) (x ++ (tagClose label ++ rest)) =
      some x.length := by
    rw [findCI_append_of_fail (tagClose label) '<' ('/' :: (label ++ ['>'])) rfl x _
      (fun c hc => lcEq_lt_false c (hx c hc))]
    rw [findCI_append_self (tagClose label) '<' ('/' :: (label ++ ['>'])) rfl rest]
    simp
  rw [hclose]
  dsimp only
  rw [List.take_left]

theorem fuzzyExtract_wellformed (label x w rest : List Char) (hx : ∀ c ∈ x, c ≠ '<')
    (hne : w ≠ []) (hw : ∀ c ∈ w, isWordChar c = true) :
    fuzzyExtract label (tagOpen label ++ (x ++ ('<' :: '/' :: (w ++ ('>' :: rest))))) =
      some (jsTrim x) := by
  have hopen := findCI_append_self (tagOpen label) '<' (label ++ ['>']) rfl
    (x ++ ('<' :: '/' :: (w ++ ('>' :: rest))))
  simp only [fuzzyExtract, hopen]
  have hdrop : (tagOpen label ++ (x ++ ('<' :: '/' :: (w ++ ('>' :: rest))))).drop
      (0 + (tagOpen label).length) = x ++ ('<' :: '/' :: (w ++ ('>' :: rest))) := by
    rw [Nat.zero_add]
    exact List.drop_left _ _
  rw [hdrop]
  rw [findFuzzyClose_append x _ hx (fuzzyCloseAt_wellformed w rest hne hw)]
  dsimp only
  rw [List.take_left]

/-- C5: per field marker, extraction tries the strict tag pattern first; if
it fails, the lenient any-closing-tag pattern; if both fail the value is the
empty string; every recovered value is whitespace-trimmed at both ends; a
well-formed `<TAG>x</TAG>` region (with `x` free of `<`) is recovered
strictly as `trim x`; and a region whose closing tag is malformed-but-present
(`</w>` for any nonempty word `w`) on which the strict pattern fails is still
recovered leniently as `trim x`. -/
theorem claim_C5 (label : String) (text : List Char) :
    (∀ v, strictExtract label.data text = some v → extractField label text = ⟨v⟩) ∧
    (∀ w, strictExtract label.data text = none →
      fuzzyExtract label.data text = some w → extractField label text = ⟨w⟩) ∧
    (strictExtract label.data text = none → fuzzyExtract label.data text = none →
      extractField label text = "") ∧
    (∀ c, (extractField label text).data.head? = some c → jsWs c = false) ∧
    (∀ c, (extractField label text).data.getLast? = some c → jsWs c = false) ∧
    (∀ x rest, (∀ c ∈ x, c ≠ '<') →
      extractField label (tagOpen label.data ++ (x ++ (tagClose label.data ++ rest))) =
        ⟨jsTrim x⟩) ∧
    (∀ x w rest, (∀ c ∈ x, c ≠ '<') → w ≠ [] → (∀ c ∈ w, isWordChar c = true) →
      strictExtract label.data
        (tagOpen label.data ++ (x ++ ('<' :: '/' :: (w ++ ('>' :: rest))))) = none →
      extractField label
        (tagOpen label.data ++ (x ++ ('<' :: '/' :: (w ++ ('>' :: rest))))) =
        ⟨jsTrim x⟩) := by
  refine ⟨?_, ?_, ?_, ?_, ?_, ?_, ?_⟩
  · intro v h
    rw [extractField, h]
  · intro w h1 h2
    rw [extractField, h1, h2]
  · intro h1 h2
    rw [extractField, h1, h2]
  · intro c hc
    cases hs : strictExtract label.data text with
    | some v =>
      rw [extractField, hs] at hc
      obtain ⟨u, rfl⟩ := strictExtract_isTrim _ _ _ hs
      exact jsTrim_head? u c hc
    | none =>
      cases hf : fuzzyExtract label.data text with
      | some v =>
        rw [extractField, hs, hf] at hc
        obtain ⟨u, rfl⟩ := fuzzyExtract_isTrim _ _ _ hf
        exact jsTrim_head? u c hc
      | none =>
        rw [extractField, hs, hf] at hc
        cases hc
  · intro c hc
    cases hs : strictExtract label.data text with
    | some v =>
      rw [extractField, hs] at hc
      obtain ⟨u, rfl⟩ := strictExtract_isTrim _ _ _ hs
      exact jsTrim_getLast? u c hc
    | none =>
      cases hf : fuzzyExtract label.data text with
      | some v =>
        rw [extractField, hs, hf] at hc
        obtain ⟨u, rfl⟩ := fuzzyExtract_isTrim _ _ _ hf
        exact jsTrim_getLast? u c hc
      | none =>
        rw [extractField, hs, hf] at hc
        cases hc
  · intro x rest hx
    rw [extractField, strictExtract_wellformed label.data x rest hx]
  · intro x w rest hx hne hw hstrict
    rw [extractField, hstrict, fuzzyExtract_wellformed label.data x w rest hx hne hw]

/-- Witness for C5 on concrete inputs: a well-formed field is recovered and
trimmed; a field with the truncated closing tag `</NICH>` is recovered by the
lenient pass; a field with no closing marker at all extracts as empty. -/
theorem claim_C5_witness :
    extractField "NAME" "<NAME> Acme Plumbing </NAME>".data = "Acme Plumbing" ∧
    extractField "NICHE" "<NICHE>plumbing</NICH>".data = "plumbing" ∧
    extractField "AREA" "<AREA>Tulsa".data = "" := by
  refine ⟨?_, ?_, ?_⟩
  · have h := (claim_C5 "NAME" "<NAME> Acme Plumbing </NAME>".data).1
      (jsTrim " Acme Plumbing ".data) (by decide)
    calc extractField "NAME" "<NAME> Acme Plumbing </NAME>".data
        = ⟨jsTrim " Acme Plumbing ".data⟩ := h
      _ = "Acme Plumbing" := by decide
  · have h := (claim_C5 "NICHE" "<NICHE>plumbing</NICH>".data).2.1
      (jsTrim "plumbing".data) (by decide) (by decide)
    calc extractField "NICHE" "<NICHE>plumbing</NICH>".data
        = ⟨jsTrim "plumbing".data⟩ := h
      _ = "plumbing" := by decide
  · exact (claim_C5 "AREA" "<AREA>Tulsa".data).2.2.1 (by decide) (by decide)

/-! ## C10 — extractHTML always yields a doctype-prefixed document -/

theorem ciEqList_length (p : List Char) : ∀ t, ciEqList p t = true → t.length = p.length := by
  induction p with
  | nil =>
    intro t h
    cases t with
    | nil => rfl
    | cons c cs => simp [ciEqList] at h
  | cons a ps ih =>
    intro t h
    cases t with
    | nil => simp [ciEqList] at h
    | cons c cs =>
      rw [ciEqList, Bool.and_eq_true] at h
      rw [List.length_cons, List.length_cons, ih cs h.2]

theorem startsCI_of_ciEq (p : List Char) : ∀ t u, ciEqList p t = true →
    startsCI p (t ++ u) = true := by
  induction p with
  | nil => intro t u _; rfl
  | cons a ps ih =>
    intro t u h
    cases t with
    | nil => simp [ciEqList] at h
    | cons c cs =>
      rw [ciEqList, Bool.and_eq_true] at h
      rw [List.cons_append, startsCI, h.1, ih cs u h.2]
      rfl

theorem startsCI_exists (p : List Char) : ∀ s, startsCI p s = true →
    ∃ t u, s = t ++ u ∧ ciEqList p t = true := by
  induction p with
  | nil =>
    intro s _
    exact ⟨[], s, rfl, rfl⟩
  | cons a ps ih =>
    intro s h
    cases s with
    | nil => exact Bool.noConfusion h
    | cons c cs =>
      rw [startsCI, Bool.and_eq_true] at h
      obtain ⟨t, u, rfl, hci⟩ := ih cs h.2
      exact ⟨c :: t, u, rfl, by rw [ciEqList, h.1, hci]; rfl⟩

theorem ciEqList_append_split (p1 p2 : List Char) : ∀ t,
    ciEqList (p1 ++ p2) t = true →
    ∃ t1 t2, t = t1 ++ t2 ∧ ciEqList p1 t1 = true ∧ ciEqList p2 t2 = true := by
  induction p1 with
  | nil =>
    intro t h
    exact ⟨[], t, rfl, rfl, h⟩
  | cons a ps ih =>
    intro t h
    cases t with
    | nil => simp [ciEqList] at h
    | cons c cs =>
      rw [List.cons_append, ciEqList, Bool.and_eq_true] at h
      obtain ⟨t1, t2, rfl, h1, h2⟩ := ih cs h.2
      exact ⟨c :: t1, t2, rfl, by rw [ciEqList, h.1, h1]; rfl, h2⟩

theorem html_ci_shape (h4 : List Char) (h : ciEqList "html".data h4 = true) :
    ∃ a b c d, h4 = [a, b, c, d] ∧ lcEq 'h' a = true ∧ lcEq 't' b = true ∧
      lcEq 'm' c = true ∧ lcEq 'l' d = true := by
  have h' : ciEqList ('h' :: 't' :: 'm' :: 'l' :: []) h4 = true := h
  rcases h4 with _ | ⟨a, _ | ⟨b, _ | ⟨c, _ | ⟨d, rest⟩⟩⟩⟩ <;>
    simp [ciEqList] at h'
  cases rest with
  | cons e rest2 => simp [ciEqList] at h'
  | nil => exact ⟨a, b, c, d, rfl, by simp [h'.1], by simp [h'.2.1],
      by simp [h'.2.2.1], by simp [h'.2.2.2]⟩

theorem drop_takeWhile_length {α : Type} (p : α → Bool) (l : List α) :
    l.drop (l.takeWhile p).length = l.dropWhile p := by
  induction l with
  | nil => rfl
  | cons a t ih =>
    by_cases hp : p a = true
    · rw [List.takeWhile_cons_of_pos hp, List.dropWhile_cons_of_pos hp,
        List.length_cons, List.drop_succ_cons, ih]
    · rw [List.takeWhile_cons_of_neg (by simp [hp]),
        List.dropWhile_cons_of_neg (by simp [hp])]
      rfl

theorem doctypeAt_build (d w h4 u : List Char)
    (hd : ciEqList "<!doctype".data d = true) (hw : w ≠ [])
    (hws : ∀ c ∈ w, jsWs c = true) (hh : ciEqList "html".data h4 = true) :
    doctypeAt (d ++ (w ++ (h4 ++ u))) = true := by
  obtain ⟨a, b, c, e, rfl, ha, -, -, -⟩ := html_ci_shape h4 hh
  have hdlen : d.length = 9 := ciEqList_length _ _ hd
  have hna : jsWs a = false :=
    not_jsWs_of_lcEq_letter 'h' a (by decide) (by decide) ha
  have hdrop9 : (d ++ (w ++ ([a, b, c, e] ++ u))).drop 9 = w ++ ([a, b, c, e] ++ u) := by
    rw [← hdlen]
    exact List.drop_left _ _
  have hrun : (w ++ ([a, b, c, e] ++ u)).takeWhile jsWs = w := by
    rw [List.takeWhile_append_of_pos hws, List.cons_append,
      List.takeWhile_cons_of_neg (by simp [hna])]
    exact List.append_nil w
  rw [doctypeAt, Bool.and_eq_true]
  refine ⟨startsCI_of_ciEq _ _ _ hd, ?_⟩
  rw [hdrop9, wsThenHtml, Bool.and_eq_true, hrun]
  refine ⟨by simp [List.length_pos.mpr hw], ?_⟩
  rw [List.drop_left]
  exact startsCI_of_ciEq _ _ _ hh

theorem doctypeAt_dest (s : List Char) (h : doctypeAt s = true) :
    ∃ d w h4 u, s = d ++ (w ++ (h4 ++ u)) ∧ ciEqList "<!doctype".data d = true ∧
      w ≠ [] ∧ (∀ c ∈ w, jsWs c = true) ∧ ciEqList "html".data h4 = true := by
  rw [doctypeAt, Bool.and_eq_true] at h
  obtain ⟨h1, h2⟩ := h
  obtain ⟨d, u0, rfl, hd⟩ := startsCI_exists _ _ h1
  have hdlen : d.length = 9 := ciEqList_length _ _ hd
  have hdrop9 : (d ++ u0).drop 9 = u0 := by
    rw [← hdlen]
    exact List.drop_left _ _
  rw [hdrop9, wsThenHtml, Bool.and_eq_true, drop_takeWhile_length] at h2
  obtain ⟨hpos, hhtml⟩ := h2
  obtain ⟨h4, u, hdw, hh⟩ := startsCI_exists _ _ hhtml
  refine ⟨d, u0.takeWhile jsWs, h4, u, ?_, hd, ?_, ?_, hh⟩
  · rw [← hdw, List.takeWhile_append_dropWhile]
  · intro hnil
    rw [hnil] at hpos
    simp at hpos
  · intro c hc
    exact List.mem_takeWhile_imp hc

theorem trimRight_append (a b : List Char) (c : Char) (hlast : a.getLast? = some c)
    (hws : jsWs c = false) : trimRight (a ++ b) = a ++ trimRight b := by
  unfold trimRight
  rw [List.reverse_append, List.dropWhile_append]
  have ha : a.reverse.head? = some c := by
    rw [List.head?_reverse]
    exact hlast
  split
  · rename_i hemp
    have hbnil : b.reverse.dropWhile jsWs = [] := List.isEmpty_iff.mp hemp
    rw [hbnil]
    cases harev : a.reverse with
    | nil =>
      rw [harev] at ha
      cases ha
    | cons c0 rest =>
      rw [harev] at ha
      injection ha with hc0
      rw [List.dropWhile_cons_of_neg (by rw [hc0]; simp [hws])]
      rw [← harev, List.reverse_reverse]
      simp
  · rw [List.reverse_append, List.reverse_reverse]

theorem doctypeAt_jsTrim (s : List Char) (h : doctypeAt s = true) :
    doctypeAt (jsTrim s) = true := by
  obtain ⟨d, w, h4, u, rfl, hd, hw, hws, hh⟩ := doctypeAt_dest _ h
  obtain ⟨dc, d2, rfl⟩ : ∃ dc d2, d = dc :: d2 := by
    cases d with
    | nil => exact absurd hd (by decide)
    | cons a b => exact ⟨a, b, rfl⟩
  have hdc : dc = '<' := by
    have h' : ciEqList ('<' :: '!' :: 'd' :: 'o' :: 'c' :: 't' :: 'y' :: 'p' :: 'e' :: [])
        (dc :: d2) = true := hd
    rw [ciEqList, Bool.and_eq_true] at h'
    exact eq_of_lcEq '<' dc (by decide) (by decide) h'.1
  obtain ⟨a, b, c, e, rfl, ha, hb, hc, he⟩ := html_ci_shape h4 hh
  have hlws : jsWs e = false :=
    not_jsWs_of_lcEq_letter 'l' e (by decide) (by decide) he
  have htl : trimLeft ((dc :: d2) ++ (w ++ ([a, b, c, e] ++ u))) =
      (dc :: d2) ++ (w ++ ([a, b, c, e] ++ u)) := by
    rw [List.cons_append]
    unfold trimLeft
    rw [List.dropWhile_cons_of_neg (by rw [hdc]; decide)]
  unfold jsTrim
  rw [htl]
  have hassoc : (dc :: d2) ++ (w ++ ([a, b, c, e] ++ u)) =
      ((dc :: d2) ++ w ++ [a, b, c, e]) ++ u := by
    simp [List.append_assoc]
  rw [hassoc]
  rw [trimRight_append _ _ e (by rw [List.getLast?_append]; simp) hlws]
  have hassoc2 : ((dc :: d2) ++ w ++ [a, b, c, e]) ++ trimRight u =
      (dc :: d2) ++ (w ++ ([a, b, c, e] ++ trimRight u)) := by
    simp [List.append_assoc]
  rw [hassoc2]
  exact doctypeAt_build _ _ _ _ hd hw hws hh

theorem doctypeAt_dtPrefix_append (s : List Char) : doctypeAt (dtPrefix ++ s) = true := rfl

theorem doctypeAt_of_startsCI_dt (t : List Char)
    (h : startsCI "<!doctype html>".data t = true) : doctypeAt t = true := by
  obtain ⟨t0, u, rfl, hci⟩ := startsCI_exists _ _ h
  have hconcat : ciEqList ("<!doctype".data ++ (' ' :: ("html".data ++ ['>']))) t0 = true :=
    hci
  obtain ⟨t1, t2, rfl, h1, h2⟩ := ciEqList_append_split _ _ _ hconcat
  cases t2 with
  | nil => simp [ciEqList] at h2
  | cons cw t3 =>
    rw [ciEqList, Bool.and_eq_true] at h2
    have hcw : cw = ' ' := eq_of_lcEq ' ' cw (by decide) (by decide) h2.1
    obtain ⟨h4, t4, rfl, hh, -⟩ := ciEqList_append_split _ _ _ h2.2
    have hshape : (t1 ++ (cw :: (h4 ++ t4))) ++ u =
        t1 ++ ([cw] ++ (h4 ++ (t4 ++ u))) := by
      simp [List.append_assoc]
    rw [hshape]
    refine doctypeAt_build _ _ _ _ h1 (by simp) ?_ hh
    intro c hc
    rw [List.mem_singleton.mp hc, hcw]
    rfl

theorem findDoctype_some (s : List Char) : ∀ i, findDoctype s = some i →
    doctypeAt (s.drop i) = true := by
  induction s with
  | nil =>
    intro i h
    cases h
  | cons c cs ih =>
    intro i h
    rw [findDoctype] at h
    by_cases hda : doctypeAt (c :: cs) = true
    · rw [if_pos hda] at h
      injection h with hi
      rw [← hi]
      exact hda
    · rw [if_neg hda] at h
      cases hf : findDoctype cs with
      | none =>
        rw [hf] at h
        cases h
      | some j =>
        rw [hf] at h
        injection h with hi
        rw [← hi, List.drop_succ_cons]
        exact ih j hf

/-- C10: for every input string, `extractHTML` returns a string beginning
with an HTML doctype declaration — a case-insensitive `<!DOCTYPE`, one or
more whitespace characters, then `html` — whether the doctype was found in
the input (step 2), recovered from a bare `<html>...</html>` block (step 3),
or prepended by the final fallback (step 4), and regardless of markdown
fence stripping (step 1). -/
theorem claim_C10 (text : String) : doctypeAt (extractHTML text).data = true := by
  show doctypeAt (extractHTMLCore text.data) = true
  unfold extractHTMLCore
  generalize (match fenceInner text.data with
    | some inner => jsTrim inner
    | none => text.data) = t1
  show doctypeAt
      (match findDoctype t1 with
       | some i => jsTrim (t1.drop i)
       | none =>
         match htmlBlock t1 with
         | some m0 => dtPrefix ++ jsTrim m0
         | none =>
           if startsCI "<!doctype html>".data
               (jsTrim (removeAllCI "```".data (removeAllCI "```html".data t1))) = true
           then jsTrim (removeAllCI "```".data (removeAllCI "```html".data t1))
           else dtPrefix ++
             jsTrim (removeAllCI "```".data (removeAllCI "```html".data t1))) = true
  cases hdt : findDoctype t1 with
  | some i =>
    exact doctypeAt_jsTrim _ (findDoctype_some _ _ hdt)
  | none =>
    cases hb : htmlBlock t1 with
    | some m0 =>
      exact doctypeAt_dtPrefix_append _
    | none =>
      dsimp only
      by_cases hst : startsCI "<!doctype html>".data
          (jsTrim (removeAllCI "```".data (removeAllCI "```html".data t1))) = true
      · rw [if_pos hst]
        exact doctypeAt_of_startsCI_dt _ hst
      · rw [if_neg hst]
        exact doctypeAt_dtPrefix_append _

example : extractField "NAME" "<NAME> Acme Plumbing </NAME>".data = "Acme Plumbing" := by decide
example : extractField "NICHE" "<NICHE>plumbing</NICH>".data = "plumbing" := by decide
example : extractField "AREA" "no tags here".data = "" := by decide
example : toSlug "Acme Plumbing & Sons!" = "acme-plumbing-sons" := by decide
example : toSlug "!!!" = "" := by decide
example : toSlug "" = "unknown-business" := by decide
example : isValidEmail "N/A" = false := by decide
example : isValidEmail "info@acme.com" = true := by decide
example : isValidPhone "(555) 123 4567" = true := by decide
example : normalizePhone "(555) 123-4567" = "+15551234567" := by decide

end WF
